import Mathlib

/-!
Verification of the `suntime` Go package against its specification.

The coordinate-notation converter (`ParseDMS`, `DmsToDecimal`, `DecimalToDMS`,
`roundToPlaces`) is embedded over `ℚ`: Go `float64` values are modelled as exact
rationals, `int` as `ℤ`, and the decimal literals appearing in the source are
exact in `ℚ`.  The solar calculator (`calculateTime` and its named wrappers) and
the Julian-day conversions are embedded over `ℝ` because they use transcendental
functions.

The `DMS` struct is declared in a repository file that is not available here;
its shape (`Degrees`, `Minutes` integers and `Seconds` float, as used by
`ParseDMS`) follows the spec, section 3.
-/

namespace Suntime

/-- Go `math.Round`: nearest integer, halves rounded away from zero.
For nonnegative arguments this agrees with Mathlib `round` (⌊x + 1/2⌋). -/
def goRound (x : ℚ) : ℤ := if 0 ≤ x then round x else -round (-x)

/-- Go conversion `int(x)` of a float to an int: truncation toward zero. -/
def goTrunc (x : ℚ) : ℤ := if 0 ≤ x then ⌊x⌋ else -⌊-x⌋

/-- Source `roundToPlaces` (suntime.go, lines 233–236):
`math.Round(value*factor) / factor` with `factor = 10^places`. -/
def roundToPlaces (value : ℚ) (places : ℕ) : ℚ :=
  (goRound (value * 10 ^ places) : ℚ) / 10 ^ places

/-- The `DMS` record: degrees, minutes (Go `int`) and seconds (Go `float64`). -/
structure DMS where
  Degrees : ℤ
  Minutes : ℤ
  Seconds : ℚ
deriving DecidableEq, Repr

/-- Source `DmsToDecimal` (lines 187–202).  The `default` branch of the Go
switch only prints a warning to stdout (unmodelled I/O) and leaves the value
positive, so the returned value is as below for every direction string. -/
def DmsToDecimal (dms : DMS) (direction : String) : ℚ :=
  let decimal : ℚ := (dms.Degrees : ℚ) + (dms.Minutes : ℚ) / 60 + dms.Seconds / 3600
  let signed : ℚ := if direction = "S" ∨ direction = "W" then -decimal else decimal
  roundToPlaces signed 7

/-- Specification formula for `DmsToDecimal` (spec section 4.3, quoted by
claim C9): the raw value `degrees + minutes/60 + seconds/3600`, rounded to 7
decimal places, negated exactly when the direction is `S` or `W`. -/
def specDmsToDecimal (dms : DMS) (direction : String) : ℚ :=
  (if direction = "S" ∨ direction = "W" then -1 else 1) *
    roundToPlaces ((dms.Degrees : ℚ) + (dms.Minutes : ℚ) / 60 + dms.Seconds / 3600) 7

/-- Source `DecimalToDMS` (lines 205–230). -/
def DecimalToDMS (decimal : ℚ) (isLatitude : Bool) : DMS × String :=
  let direction : String :=
    if isLatitude then (if decimal < 0 then "S" else "N")
    else (if decimal < 0 then "W" else "E")
  let dec : ℚ := if decimal < 0 then |decimal| else decimal
  let degrees : ℤ := goTrunc dec
  let minutes : ℤ := goTrunc ((dec - (degrees : ℚ)) * 60)
  let seconds : ℚ := roundToPlaces ((dec - (degrees : ℚ)) * 60 - (minutes : ℚ)) 4 * 60
  (⟨degrees, minutes, seconds⟩, direction)

/-! ### The `ParseDMS` regular expression

Source regex (line 165):
the anchored pattern of 1–2 digits, the degree sign, whitespace, 1–2 digits,
an apostrophe, whitespace, 1–2 digits with an optional fraction, a double
quote, whitespace, and one of `N`, `S`, `E`, `W`.  Character codes are used
below for the apostrophe (39), double quote (34) and dot (46). -/

/-- Degree sign character. -/
def degreeSign : Char := Char.ofNat 176

/-- Apostrophe character (minutes marker in the DMS pattern). -/
def minuteSign : Char := Char.ofNat 39

/-- Double-quote character (seconds marker in the DMS pattern). -/
def secondSign : Char := Char.ofNat 34

/-- Decimal dot. -/
def dotChar : Char := Char.ofNat 46

/-- Whitespace class of Go regexp `\s`: space, tab, newline, form feed,
carriage return. -/
def isGoSpace (c : Char) : Bool :=
  c == Char.ofNat 32 || c == Char.ofNat 9 || c == Char.ofNat 10 ||
    c == Char.ofNat 12 || c == Char.ofNat 13

/-- Greedy match of `\d{1,2}`: take up to two leading digits. -/
def takeDigits2 : List Char → List Char × List Char
  | [] => ([], [])
  | [c] => if c.isDigit then ([c], []) else ([], [c])
  | c1 :: c2 :: r =>
    if c1.isDigit then
      if c2.isDigit then ([c1, c2], r) else ([c1], c2 :: r)
    else ([], c1 :: c2 :: r)

/-- Greedy match of `\s*`: take all leading whitespace. -/
def takeSpaces : List Char → List Char × List Char
  | [] => ([], [])
  | c :: cs =>
    if isGoSpace c then
      let p := takeSpaces cs
      (c :: p.1, p.2)
    else ([], c :: cs)

/-- Greedy match of `\d*`: take all leading digits. -/
def takeDigits : List Char → List Char × List Char
  | [] => ([], [])
  | c :: cs =>
    if c.isDigit then
      let p := takeDigits cs
      (c :: p.1, p.2)
    else ([], c :: cs)

/-- Numeric value of a digit string (`strconv.Atoi` on an all-digit string). -/
def digitsVal (l : List Char) : ℕ := l.foldl (fun a c => 10 * a + (c.toNat - 48)) 0

/-- Expect one specific character. -/
def expectChar (c : Char) : List Char → Option (List Char)
  | [] => none
  | x :: r => if x = c then some r else none

/-- Match `\d{1,2}` (at least one digit required). -/
def pDigits2 (l : List Char) : Option (List Char × List Char) :=
  let p := takeDigits2 l
  if p.1.isEmpty then none else some p

/-- Match `\s+` (at least one whitespace character required). -/
def pSpaces1 (l : List Char) : Option (List Char) :=
  let p := takeSpaces l
  if p.1.isEmpty then none else some p.2

/-- Match the seconds token `\d{1,2}(?:\.\d+)?` and return its numeric value
(`strconv.ParseFloat` modelled as the exact decimal value). -/
def pSeconds (l : List Char) : Option (ℚ × List Char) :=
  match pDigits2 l with
  | none => none
  | some (i, r) =>
    match r with
    | [] => some ((digitsVal i : ℚ), [])
    | c :: r2 =>
      if c = dotChar then
        let p := takeDigits r2
        if p.1.isEmpty then none
        else some ((digitsVal i : ℚ) + (digitsVal p.1 : ℚ) / 10 ^ p.1.length, p.2)
      else some ((digitsVal i : ℚ), c :: r2)

/-- Hemisphere letter class `[NSEW]` of the regex (uppercase only). -/
def isHemisphere (c : Char) : Bool := c == 'N' || c == 'S' || c == 'E' || c == 'W'

/-- Functional form of `re.FindStringSubmatch` for the anchored `ParseDMS`
regex, followed by the component extraction of lines 171–183: on a match it
yields the `DMS` value and the hemisphere letter passed through
`strings.ToUpper`. -/
def matchDMS (l : List Char) : Option (DMS × String) :=
  match pDigits2 l with
  | none => none
  | some (d, r1) =>
    match expectChar degreeSign r1 with
    | none => none
    | some r2 =>
      match pSpaces1 r2 with
      | none => none
      | some r3 =>
        match pDigits2 r3 with
        | none => none
        | some (m, r4) =>
          match expectChar minuteSign r4 with
          | none => none
          | some r5 =>
            match pSpaces1 r5 with
            | none => none
            | some r6 =>
              match pSeconds r6 with
              | none => none
              | some (sec, r7) =>
                match expectChar secondSign r7 with
                | none => none
                | some r8 =>
                  match pSpaces1 r8 with
                  | none => none
                  | some r9 =>
                    match r9 with
                    | [c] =>
                      if isHemisphere c then
                        some (⟨(digitsVal d : ℤ), (digitsVal m : ℤ), sec⟩,
                          String.mk [c.toUpper])
                      else none
                    | _ => none

/-- Source `ParseDMS` (lines 163–184).  The Go function returns
`(DMS{}, "", fmt.Errorf("invalid DMS format: %s", input))` when the regex does
not match; this is modelled with `Except`, keeping the error message. -/
def ParseDMS (input : String) : Except String (DMS × String) :=
  match matchDMS input.data with
  | some v => Except.ok v
  | none => Except.error ("invalid DMS format: " ++ input)

/-- Degrees or minutes component of the spec pattern: one or two digits. -/
def IsDigits12 (l : List Char) : Prop :=
  1 ≤ l.length ∧ l.length ≤ 2 ∧ ∀ c ∈ l, c.isDigit = true

/-- Separator of the spec pattern: one or more whitespace characters. -/
def IsSpaces1 (l : List Char) : Prop := 1 ≤ l.length ∧ ∀ c ∈ l, isGoSpace c = true

/-- Seconds component of the spec pattern: one or two digits, optionally
followed by a dot and at least one fractional digit. -/
def IsSecondsTok (l : List Char) : Prop :=
  IsDigits12 l ∨
    ∃ i f, IsDigits12 i ∧ 1 ≤ f.length ∧ (∀ c ∈ f, c.isDigit = true) ∧ l = i ++ dotChar :: f

/-- Hemisphere letters of the source regex character class (uppercase only). -/
def IsHemi (c : Char) : Prop := c = 'N' ∨ c = 'S' ∨ c = 'E' ∨ c = 'W'

/-- The textual DMS pattern (spec section 4.3): `D[D]° M[M]' S[.f]" H` with
one-or-more-whitespace separators and an uppercase hemisphere letter. -/
def SpecDMSPattern (s : String) : Prop :=
  ∃ d w1 m w2 sec w3 c,
    IsDigits12 d ∧ IsSpaces1 w1 ∧ IsDigits12 m ∧ IsSpaces1 w2 ∧ IsSecondsTok sec ∧
      IsSpaces1 w3 ∧ IsHemi c ∧
      s.data = d ++ degreeSign ::
        (w1 ++ (m ++ minuteSign :: (w2 ++ (sec ++ secondSign :: (w3 ++ [c])))))

/-- Data-model invariant claimed for `DMS` values (spec section 3): degrees
nonnegative, minutes in `[0, 59]`, seconds in `[0, 60)`. -/
def DMSInvariant (dms : DMS) : Prop :=
  0 ≤ dms.Degrees ∧ 0 ≤ dms.Minutes ∧ dms.Minutes ≤ 59 ∧ 0 ≤ dms.Seconds ∧ dms.Seconds < 60

/-- The list does not start with a digit. -/
def NotDigitStart : List Char → Prop
  | [] => True
  | c :: _ => c.isDigit = false

/-- The list does not start with a whitespace character. -/
def NotSpaceStart : List Char → Prop
  | [] => True
  | c :: _ => isGoSpace c = false

/-- The list does not start with a decimal dot. -/
def NotDotStart : List Char → Prop
  | [] => True
  | c :: _ => c ≠ dotChar

/-! ### Julian-day conversion and the solar calculator

Embedded over `ℝ`; a `time.Time` value is modelled as its real number of
seconds since the Unix epoch (UTC).  The repository delegates the civil-date ↔
Julian-day leaf to external libraries (`soniakeys/meeus/julian` and Go's
`time` package), which the spec (sections 4.1 and 6) declares standard,
assumed-correct collaborators; they are modelled from the spec below. -/

noncomputable section

/-- Source constant `J1970` (line 20). -/
def J1970 : ℝ := 2440588

/-- Source constant `J2000` (line 21). -/
def J2000 : ℝ := 2451545

/-- Source constant `DegreesToRadians` (line 22). -/
def DegreesToRadians : ℝ := Real.pi / 180

/-- Source constant `RadiansToDegrees` (line 23). -/
def RadiansToDegrees : ℝ := 180 / Real.pi

/-- Julian day of the Unix epoch midnight, 1970-01-01T00:00:00Z. -/
def epochJD : ℝ := 2440587.5

/-- Modelled from the spec: the civil UTC date of an instant, as a count of
days since 1970-01-01 (the date whose components Go's `Year()`, `Month()`,
`Day()` return for this instant). -/
def dateIndex (t : ℝ) : ℤ := ⌊t / 86400⌋

/-- Modelled from the spec: `julian.CalendarGregorianToJD` (the standard
Gregorian-calendar-to-Julian-day formula of spec section 4.1) applied to the
date `d` days after 1970-01-01; with an integral day argument it yields the
Julian day of that date's midnight UTC, `d + 2440587.5`. -/
def CalendarGregorianToJD (d : ℤ) : ℝ := (d : ℝ) + epochJD

/-- Source `ToJulianDay` (lines 84–88): only the year, month and day of `t`
are passed to `CalendarGregorianToJD`; the time of day is discarded. -/
def ToJulianDay (t : ℝ) : ℝ := CalendarGregorianToJD (dateIndex t)

/-- Source `FromJulianDay` (lines 91–93); `julian.JDToTime` is modelled from
the spec as the exact conversion from a Julian day to the UTC instant. -/
def FromJulianDay (jd : ℝ) : ℝ := (jd - epochJD) * 86400

/-- Source `JulianToUTC` (lines 76–81). -/
def JulianToUTC (julian : ℝ) : ℝ := ToJulianDay (FromJulianDay (julian + 0.5))

/-- Go `time.Time.Round(time.Second)`: rounds to the nearest whole second,
halfway values rounded up (the zero time lies far in the past). -/
def roundToSecond (t : ℝ) : ℤ := round t

/-- Mean solar noon `Jstar` of `calculateTime` (lines 119–122),
`n - longitude/360` with `n = julianDay - J2000`. -/
def meanSolarNoon (julianDay longitude : ℝ) : ℝ := (julianDay - J2000) - longitude / 360

/-- Solar mean anomaly `M` of `calculateTime` (line 125), in radians. -/
def meanAnomaly (julianDay longitude : ℝ) : ℝ :=
  (357.5291 + 0.98560028 * meanSolarNoon julianDay longitude) * DegreesToRadians

/-- Equation of center `C` of `calculateTime` (line 128).  The coefficients
are the degree-valued series coefficients, applied to sines of the
radian-valued `M`. -/
def equationOfCenter (julianDay longitude : ℝ) : ℝ :=
  1.9148 * Real.sin (meanAnomaly julianDay longitude) +
    0.0200 * Real.sin (2 * meanAnomaly julianDay longitude) +
    0.0003 * Real.sin (3 * meanAnomaly julianDay longitude)

/-- Ecliptic longitude `lambda` of `calculateTime` (line 131), in degrees:
`(M + C + 102.9372*DegreesToRadians + π) * RadiansToDegrees` exactly as in the
source, with `M` in radians and `C` the value above. -/
def eclipticLongitude (julianDay longitude : ℝ) : ℝ :=
  (meanAnomaly julianDay longitude + equationOfCenter julianDay longitude +
    102.9372 * DegreesToRadians + Real.pi) * RadiansToDegrees

/-- Solar transit `Jtransit` of `calculateTime` (line 134). -/
def solarTransit (julianDay longitude : ℝ) : ℝ :=
  J2000 + meanSolarNoon julianDay longitude +
    0.0053 * Real.sin (meanAnomaly julianDay longitude) -
    0.0069 * Real.sin (2 * eclipticLongitude julianDay longitude * DegreesToRadians)

/-- Solar declination `delta` of `calculateTime` (line 137). -/
def declination (julianDay longitude : ℝ) : ℝ :=
  Real.arcsin (Real.sin (eclipticLongitude julianDay longitude * DegreesToRadians) *
    Real.sin (23.44 * DegreesToRadians))

/-- Argument passed to `math.Acos` in `calculateTime` (lines 140–145). -/
def acosArg (julianDay longitude latitude angle : ℝ) : ℝ :=
  (Real.cos (angle * DegreesToRadians) -
      Real.sin (latitude * DegreesToRadians) * Real.sin (declination julianDay longitude)) /
    (Real.cos (latitude * DegreesToRadians) * Real.cos (declination julianDay longitude))

/-- Source `calculateTime` (lines 117–155).  The Go function always returns a
`time.Time`: when the `math.Acos` argument lies outside `[-1, 1]`, `Acos`
returns NaN, the NaN propagates through `Jset` and `FromJulianDay`, and the
function returns a garbage time value rather than any error.  `none` models
that NaN-poisoned result; `some` carries the finite result rounded to the
nearest second.  There is no error channel in the Go signature. -/
def calculateTime (julianDay longitude latitude angle : ℝ) (isSunrise : Bool) : Option ℤ :=
  if -1 ≤ acosArg julianDay longitude latitude angle ∧
      acosArg julianDay longitude latitude angle ≤ 1 then
    some (roundToSecond (FromJulianDay (solarTransit julianDay longitude +
      (if isSunrise then -Real.arccos (acosArg julianDay longitude latitude angle)
        else Real.arccos (acosArg julianDay longitude latitude angle)) / (2 * Real.pi))))
  else none

/-- Source `Sunrise` (lines 36–39). -/
def Sunrise (julianDay longitude latitude : ℝ) : Option ℤ :=
  calculateTime (JulianToUTC julianDay) longitude latitude 90.833 true

/-- Source `Sunset` (lines 42–44). -/
def Sunset (julianDay longitude latitude : ℝ) : Option ℤ :=
  calculateTime (JulianToUTC julianDay) longitude latitude 90.833 false

/-- Source `CivilTwilightSunrise` (lines 47–49). -/
def CivilTwilightSunrise (julianDay longitude latitude : ℝ) : Option ℤ :=
  calculateTime (JulianToUTC julianDay) longitude latitude 96.0 true

/-- Source `CivilTwilightSunset` (lines 52–54). -/
def CivilTwilightSunset (julianDay longitude latitude : ℝ) : Option ℤ :=
  calculateTime (JulianToUTC julianDay) longitude latitude 96.0 false

/-- Source `NauticalTwilightSunrise` (lines 57–59). -/
def NauticalTwilightSunrise (julianDay longitude latitude : ℝ) : Option ℤ :=
  calculateTime (JulianToUTC julianDay) longitude latitude 102.0 true

/-- Source `NauticalTwilightSunset` (lines 62–64). -/
def NauticalTwilightSunset (julianDay longitude latitude : ℝ) : Option ℤ :=
  calculateTime (JulianToUTC julianDay) longitude latitude 102.0 false

/-- Source `AstronomicalTwilightSunrise` (lines 67–69). -/
def AstronomicalTwilightSunrise (julianDay longitude latitude : ℝ) : Option ℤ :=
  calculateTime (JulianToUTC julianDay) longitude latitude 108.0 true

/-- Source `AstronomicalTwilightSunset` (lines 72–74). -/
def AstronomicalTwilightSunset (julianDay longitude latitude : ℝ) : Option ℤ :=
  calculateTime (JulianToUTC julianDay) longitude latitude 108.0 false

/-- Specification formula for the ecliptic longitude (spec section 4.2, step
5, quoted by claim C3): `λ = M + C + 102.9372 + 180` with every term in
degrees — the mean anomaly in degrees is the source's radian `M` times
`RadiansToDegrees`, and `C` is the (degree-valued) equation of center. -/
def specEclipticLongitude (julianDay longitude : ℝ) : ℝ :=
  meanAnomaly julianDay longitude * RadiansToDegrees +
    equationOfCenter julianDay longitude + 102.9372 + 180

end

end Suntime

namespace Suntime

/-! ### Helper lemmas -/

theorem goRound_neg (x : ℚ) : goRound (-x) = -goRound x := by
  unfold goRound
  rcases lt_trichotomy x 0 with h | h | h
  · rw [if_pos (by linarith), if_neg (by linarith), neg_neg]
  · subst h
    norm_num
  · rw [if_neg (by linarith), if_pos (by linarith), neg_neg]

theorem roundToPlaces_neg (v : ℚ) (p : ℕ) : roundToPlaces (-v) p = -roundToPlaces v p := by
  unfold roundToPlaces
  rw [neg_mul, goRound_neg]
  push_cast
  ring

theorem JulianToUTC_eq_floor (jd : ℝ) : JulianToUTC jd = (⌊jd⌋ : ℝ) + 0.5 := by
  unfold JulianToUTC ToJulianDay CalendarGregorianToJD dateIndex FromJulianDay epochJD
  rw [mul_div_cancel_right₀ _ (by norm_num : (86400 : ℝ) ≠ 0)]
  have h1 : jd + 0.5 - 2440587.5 = jd + ((-2440587 : ℤ) : ℝ) := by
    push_cast
    ring
  rw [h1, Int.floor_add_int]
  push_cast
  ring

theorem JulianToUTC_congr {jd jd2 : ℝ}
    (h : dateIndex (FromJulianDay (jd + 0.5)) = dateIndex (FromJulianDay (jd2 + 0.5))) :
    JulianToUTC jd = JulianToUTC jd2 := by
  unfold JulianToUTC ToJulianDay
  rw [h]

theorem abs_goRound_sub (x : ℚ) : |(goRound x : ℚ) - x| ≤ 1 / 2 := by
  unfold goRound
  by_cases h : 0 ≤ x
  · rw [if_pos h, abs_sub_comm]
    exact abs_sub_round x
  · rw [if_neg h]
    have hne : ((-round (-x) : ℤ) : ℚ) - x = -((round (-x) : ℚ) - -x) := by
      push_cast
      ring
    rw [hne, abs_neg, abs_sub_comm]
    exact abs_sub_round (-x)

theorem abs_roundToPlaces_sub (v : ℚ) (p : ℕ) :
    |roundToPlaces v p - v| ≤ 1 / (2 * 10 ^ p) := by
  have hp : (0 : ℚ) < 10 ^ p := by positivity
  have key : roundToPlaces v p - v = ((goRound (v * 10 ^ p) : ℚ) - v * 10 ^ p) / 10 ^ p := by
    unfold roundToPlaces
    field_simp
    ring
  rw [key, abs_div, abs_of_pos hp]
  calc |(goRound (v * 10 ^ p) : ℚ) - v * 10 ^ p| / 10 ^ p
      ≤ (1 / 2) / 10 ^ p := by gcongr; exact abs_goRound_sub (v * 10 ^ p)
    _ = 1 / (2 * 10 ^ p) := by ring

/-- Error of the full DMS reconstruction: with the minutes fraction split as
`x = D + Mq/60 + R/60`, the value rebuilt from the 4-place-rounded seconds
remainder and then rounded to 7 places stays within `1e-6` of `x`. -/
theorem dms_reconstruct_close (D Mq R x : ℚ) (hx : x = D + Mq / 60 + R / 60) :
    |roundToPlaces (D + Mq / 60 + roundToPlaces R 4 * 60 / 3600) 7 - x| ≤ 1 / 1000000 := by
  set A : ℚ := D + Mq / 60 + roundToPlaces R 4 * 60 / 3600 with hA
  have h3 : A - x = (roundToPlaces R 4 - R) / 60 := by
    rw [hA, hx]
    ring
  have h4 : |A - x| ≤ 1 / 20000 / 60 := by
    rw [h3, abs_div, abs_of_pos (by norm_num : (0 : ℚ) < 60)]
    have h5 := abs_roundToPlaces_sub R 4
    norm_num at h5 ⊢
    linarith
  have h2 : |roundToPlaces A 7 - A| ≤ 1 / 20000000 := by
    have h6 := abs_roundToPlaces_sub A 7
    norm_num at h6 ⊢
    linarith
  calc |roundToPlaces A 7 - x|
      ≤ |roundToPlaces A 7 - A| + |A - x| := abs_sub_le _ _ _
    _ ≤ 1 / 20000000 + 1 / 20000 / 60 := add_le_add h2 h4
    _ ≤ 1 / 1000000 := by norm_num

theorem DecimalToDMS_of_nonneg (d : ℚ) (h : ¬d < 0) (isLatitude : Bool) :
    DecimalToDMS d isLatitude =
      (⟨⌊d⌋, ⌊(d - (⌊d⌋ : ℚ)) * 60⌋,
          roundToPlaces ((d - (⌊d⌋ : ℚ)) * 60 - (⌊(d - (⌊d⌋ : ℚ)) * 60⌋ : ℚ)) 4 * 60⟩,
        if isLatitude then "N" else "E") := by
  have hd : 0 ≤ d := not_lt.mp h
  have hfr : (0 : ℚ) ≤ (d - (⌊d⌋ : ℚ)) * 60 := by
    have hf := Int.fract_nonneg d
    unfold Int.fract at hf
    nlinarith
  simp only [DecimalToDMS, if_neg h, goTrunc, if_pos hd, if_pos hfr]

theorem DecimalToDMS_of_neg (d : ℚ) (h : d < 0) (isLatitude : Bool) :
    DecimalToDMS d isLatitude =
      (⟨⌊-d⌋, ⌊(-d - (⌊-d⌋ : ℚ)) * 60⌋,
          roundToPlaces ((-d - (⌊-d⌋ : ℚ)) * 60 - (⌊(-d - (⌊-d⌋ : ℚ)) * 60⌋ : ℚ)) 4 * 60⟩,
        if isLatitude then "S" else "W") := by
  have habs : |d| = -d := abs_of_neg h
  have hd : (0 : ℚ) ≤ -d := by linarith
  have hfr : (0 : ℚ) ≤ (-d - (⌊-d⌋ : ℚ)) * 60 := by
    have hf := Int.fract_nonneg (-d)
    unfold Int.fract at hf
    nlinarith
  simp only [DecimalToDMS, if_pos h, habs, goTrunc, if_pos hd, if_pos hfr]

theorem DmsToDecimal_of_sw {direction : String} (dms : DMS)
    (h : direction = "S" ∨ direction = "W") :
    DmsToDecimal dms direction =
      roundToPlaces (-((dms.Degrees : ℚ) + (dms.Minutes : ℚ) / 60 + dms.Seconds / 3600)) 7 := by
  simp only [DmsToDecimal, if_pos h]

theorem DmsToDecimal_of_ne {direction : String} (dms : DMS)
    (h : ¬(direction = "S" ∨ direction = "W")) :
    DmsToDecimal dms direction =
      roundToPlaces ((dms.Degrees : ℚ) + (dms.Minutes : ℚ) / 60 + dms.Seconds / 3600) 7 := by
  simp only [DmsToDecimal, if_neg h]

/-! ### Claim C4 -/

/-- Claim C4: for every decimal-degree value in the valid coordinate range and
either axis, converting to DMS with `DecimalToDMS` and back with
`DmsToDecimal` reproduces the value within `1e-6` degrees (the 4-place
rounding of the seconds remainder costs at most `1/1200000` degrees and the
final 7-place rounding at most `1/20000000`). -/
theorem claim4_decimal_dms_roundtrip (d : ℚ) (isLatitude : Bool) (_hd : |d| ≤ 180) :
    |DmsToDecimal (DecimalToDMS d isLatitude).1 (DecimalToDMS d isLatitude).2 - d| ≤
      1 / 1000000 := by
  by_cases hneg : d < 0
  · rw [DecimalToDMS_of_neg d hneg isLatitude]
    have hdir : ((if isLatitude then "S" else "W") = "S" ∨
        (if isLatitude then "S" else "W") = "W") := by
      cases isLatitude <;> simp
    rw [DmsToDecimal_of_sw _ hdir, roundToPlaces_neg]
    have hflip : -roundToPlaces ((((⌊-d⌋ : ℤ) : ℚ)) + ((⌊(-d - (⌊-d⌋ : ℚ)) * 60⌋ : ℤ) : ℚ) / 60 +
          roundToPlaces ((-d - (⌊-d⌋ : ℚ)) * 60 - (⌊(-d - (⌊-d⌋ : ℚ)) * 60⌋ : ℚ)) 4 * 60 / 3600)
          7 - d
        = -(roundToPlaces ((((⌊-d⌋ : ℤ) : ℚ)) + ((⌊(-d - (⌊-d⌋ : ℚ)) * 60⌋ : ℤ) : ℚ) / 60 +
          roundToPlaces ((-d - (⌊-d⌋ : ℚ)) * 60 - (⌊(-d - (⌊-d⌋ : ℚ)) * 60⌋ : ℚ)) 4 * 60 / 3600)
          7 - -d) := by
      ring
    rw [hflip, abs_neg]
    exact dms_reconstruct_close _ _ _ (-d) (by ring)
  · rw [DecimalToDMS_of_nonneg d hneg isLatitude]
    have hdir : ¬((if isLatitude then "N" else "E") = "S" ∨
        (if isLatitude then "N" else "E") = "W") := by
      cases isLatitude <;> simp
    rw [DmsToDecimal_of_ne _ hdir]
    exact dms_reconstruct_close _ _ _ d (by ring)

/-- Witness for claim C4 at the documented fixture value `38.8587333`. -/
theorem claim4_witness :
    |(38.8587333 : ℚ)| ≤ 180 ∧
    |DmsToDecimal (DecimalToDMS 38.8587333 true).1 (DecimalToDMS 38.8587333 true).2 -
        38.8587333| ≤ 1 / 1000000 :=
  ⟨by rw [abs_of_nonneg (by norm_num : (0 : ℚ) ≤ (38.8587333 : ℚ))]; norm_num,
    claim4_decimal_dms_roundtrip 38.8587333 true
      (by rw [abs_of_nonneg (by norm_num : (0 : ℚ) ≤ (38.8587333 : ℚ))]; norm_num)⟩

/-! ### Claim C2 -/

/-- Counterexample to claim C2: for the whole-second civil timestamp
1970-01-01T13:00:00Z (46800 seconds after the epoch), the round trip
`FromJulianDay (ToJulianDay t)` returns midnight of the same date (0 seconds),
not `t`, because `ToJulianDay` passes only year, month and day to the
Gregorian-to-JD formula. -/
theorem claim2_roundtrip_counterexample :
    FromJulianDay (ToJulianDay 46800) = 0 ∧ (0 : ℝ) ≠ 46800 := by
  constructor
  · unfold ToJulianDay FromJulianDay CalendarGregorianToJD dateIndex epochJD
    norm_num
  · norm_num

/-- Amended claim C2: `FromJulianDay (ToJulianDay t)` is midnight UTC of the
civil date of `t` — the time of day of `t` is discarded — so the round trip is
the identity exactly on midnight-referenced (date-only) timestamps, not on all
whole-second timestamps. -/
theorem claim2_roundtrip_truncates_to_midnight :
    (∀ t : ℝ, FromJulianDay (ToJulianDay t) = ((⌊t / 86400⌋ : ℤ) : ℝ) * 86400) ∧
    ∀ d : ℤ, FromJulianDay (ToJulianDay ((d : ℝ) * 86400)) = (d : ℝ) * 86400 := by
  have key : ∀ t : ℝ, FromJulianDay (ToJulianDay t) = ((⌊t / 86400⌋ : ℤ) : ℝ) * 86400 := by
    intro t
    unfold ToJulianDay FromJulianDay CalendarGregorianToJD dateIndex
    ring
  refine ⟨key, fun d => ?_⟩
  rw [key ((d : ℝ) * 86400), mul_div_cancel_right₀ _ (by norm_num : (86400 : ℝ) ≠ 0),
    Int.floor_intCast]

/-! ### Claim C10 -/

/-- Claim C10: `JulianToUTC` always lands on a Julian day with fractional part
exactly `0.5` (midnight UTC of the civil date containing `jd + 0.5`), and
every public solar event function depends only on the civil date of
`jd + 0.5`: two Julian-day arguments whose shifted instants fall on the same
civil date yield identical results for all eight event functions. -/
theorem claim10_events_depend_only_on_civil_date :
    (∀ jd : ℝ, Int.fract (JulianToUTC jd) = 0.5) ∧
    ∀ jd jd2 longitude latitude : ℝ,
      dateIndex (FromJulianDay (jd + 0.5)) = dateIndex (FromJulianDay (jd2 + 0.5)) →
      Sunrise jd longitude latitude = Sunrise jd2 longitude latitude ∧
      Sunset jd longitude latitude = Sunset jd2 longitude latitude ∧
      CivilTwilightSunrise jd longitude latitude = CivilTwilightSunrise jd2 longitude latitude ∧
      CivilTwilightSunset jd longitude latitude = CivilTwilightSunset jd2 longitude latitude ∧
      NauticalTwilightSunrise jd longitude latitude =
        NauticalTwilightSunrise jd2 longitude latitude ∧
      NauticalTwilightSunset jd longitude latitude =
        NauticalTwilightSunset jd2 longitude latitude ∧
      AstronomicalTwilightSunrise jd longitude latitude =
        AstronomicalTwilightSunrise jd2 longitude latitude ∧
      AstronomicalTwilightSunset jd longitude latitude =
        AstronomicalTwilightSunset jd2 longitude latitude := by
  constructor
  · intro jd
    rw [JulianToUTC_eq_floor, add_comm, Int.fract_add_int]
    rw [Int.fract_eq_self.mpr (by norm_num)]
  · intro jd jd2 longitude latitude h
    have hJ : JulianToUTC jd = JulianToUTC jd2 := JulianToUTC_congr h
    unfold Sunrise Sunset CivilTwilightSunrise CivilTwilightSunset NauticalTwilightSunrise
      NauticalTwilightSunset AstronomicalTwilightSunrise AstronomicalTwilightSunset
    rw [hJ]
    tauto

/-- Witness for claim C10 at concrete inputs: `jd = 2460682.5` and
`jd2 = 2460682.75` shifted by `0.5` fall on the same civil date, so every
event function agrees on them, and `JulianToUTC` of `2460682.5` has fractional
part `0.5`. -/
theorem claim10_witness :
    Int.fract (JulianToUTC 2460682.5) = 0.5 ∧
    Sunrise 2460682.5 0 0 = Sunrise 2460682.75 0 0 ∧
    AstronomicalTwilightSunset 2460682.5 0 0 = AstronomicalTwilightSunset 2460682.75 0 0 := by
  have hdate : dateIndex (FromJulianDay ((2460682.5 : ℝ) + 0.5)) =
      dateIndex (FromJulianDay ((2460682.75 : ℝ) + 0.5)) := by
    unfold dateIndex FromJulianDay epochJD
    norm_num
  refine ⟨claim10_events_depend_only_on_civil_date.1 2460682.5, ?_, ?_⟩
  · exact (claim10_events_depend_only_on_civil_date.2 2460682.5 2460682.75 0 0 hdate).1
  · exact (claim10_events_depend_only_on_civil_date.2 2460682.5 2460682.75 0 0
      hdate).2.2.2.2.2.2.2

/-! ### Claim C6 -/

/-- Claim C6 fails on the code (code bug): for the out-of-set direction `"X"`,
`DmsToDecimal` does not fail with any error — the Go switch `default` branch
only prints a warning to stdout — and it returns the positive decimal value,
exactly as it does for `"N"`. -/
theorem claim6_invalid_direction_silently_positive :
    DmsToDecimal ⟨38, 51, 31.44⟩ "X" = 38.8587333 ∧
    DmsToDecimal ⟨38, 51, 31.44⟩ "X" = DmsToDecimal ⟨38, 51, 31.44⟩ "N" := by
  constructor
  · with_unfolding_all rfl
  · with_unfolding_all rfl

/-! ### Claim C9 -/

/-- Claim C9: `DmsToDecimal` computes the spec formula — the raw value
`degrees + minutes/60 + seconds/3600` rounded to 7 decimal places, negated
exactly for the `S` and `W` directions — and on the fixture
`DMS{38, 51, 31.44}` with direction `N` it yields `38.8587333`. -/
theorem claim9_dms_to_decimal_formula :
    (∀ (dms : DMS) (direction : String),
        DmsToDecimal dms direction = specDmsToDecimal dms direction) ∧
    DmsToDecimal ⟨38, 51, 31.44⟩ "N" = 38.8587333 := by
  constructor
  · intro dms direction
    by_cases h : direction = "S" ∨ direction = "W"
    · simp only [DmsToDecimal, specDmsToDecimal, if_pos h, roundToPlaces_neg]
      ring
    · simp only [DmsToDecimal, specDmsToDecimal, if_neg h, one_mul]
  · with_unfolding_all rfl

/-! ### Parser characterisation lemmas -/

theorem digit_toNat_bounds {c : Char} (h : c.isDigit = true) : 48 ≤ c.toNat ∧ c.toNat ≤ 57 := by
  unfold Char.isDigit at h
  simp only [Bool.and_eq_true, decide_eq_true_eq, ge_iff_le] at h
  obtain ⟨h1, h2⟩ := h
  rw [UInt32.le_def, BitVec.le_def] at h1 h2
  unfold Char.toNat UInt32.toNat
  exact ⟨h1, h2⟩

theorem space_toNat {c : Char} (h : isGoSpace c = true) :
    c.toNat = 32 ∨ c.toNat = 9 ∨ c.toNat = 10 ∨ c.toNat = 12 ∨ c.toNat = 13 := by
  unfold isGoSpace at h
  simp only [Bool.or_eq_true, beq_iff_eq, or_assoc] at h
  rcases h with h | h | h | h | h <;> subst h <;> decide

theorem digit_not_space {c : Char} (hd : c.isDigit = true) : isGoSpace c = false := by
  cases hsp : isGoSpace c
  · rfl
  · exfalso
    have h1 := space_toNat hsp
    have h2 := digit_toNat_bounds hd
    omega

theorem takeDigits2_sound {l d r : List Char} (h : takeDigits2 l = (d, r)) :
    l = d ++ r ∧ d.length ≤ 2 ∧ ∀ c ∈ d, c.isDigit = true := by
  match l with
  | [] =>
    simp only [takeDigits2, Prod.mk.injEq] at h
    obtain ⟨h1, h2⟩ := h
    subst h1
    subst h2
    simp
  | [c1] =>
    by_cases hc : c1.isDigit = true <;>
      simp only [takeDigits2, hc, if_pos, if_neg, Bool.false_eq_true, if_false,
        Prod.mk.injEq] at h <;>
      obtain ⟨h1, h2⟩ := h <;> subst h1 <;> subst h2 <;> simp [hc]
  | c1 :: c2 :: t =>
    by_cases h1 : c1.isDigit = true <;> by_cases h2 : c2.isDigit = true <;>
      simp only [takeDigits2, h1, h2, Bool.false_eq_true, if_true, if_false,
        Prod.mk.injEq] at h <;>
      obtain ⟨ha, hb⟩ := h <;> subst ha <;> subst hb <;> simp_all

theorem takeDigits2_eat {d r : List Char} (hd : IsDigits12 d)
    (hr : d.length = 2 ∨ NotDigitStart r) : takeDigits2 (d ++ r) = (d, r) := by
  obtain ⟨h1, h2, h3⟩ := hd
  match d with
  | [] => simp at h1
  | [a] =>
    have ha : a.isDigit = true := h3 a (by simp)
    have hnd : NotDigitStart r := by
      rcases hr with hr | hr
      · simp at hr
      · exact hr
    match r with
    | [] => simp [takeDigits2, ha]
    | c :: t =>
      have hc : c.isDigit = false := hnd
      simp [takeDigits2, ha, hc]
  | [a, b] =>
    have ha : a.isDigit = true := h3 a (by simp)
    have hb : b.isDigit = true := h3 b (by simp)
    simp [takeDigits2, ha, hb]
  | a :: b :: c :: t => simp at h2

theorem takeSpaces_sound : ∀ {l w r : List Char}, takeSpaces l = (w, r) →
    l = w ++ r ∧ (∀ c ∈ w, isGoSpace c = true) ∧ NotSpaceStart r := by
  intro l
  induction l with
  | nil =>
    intro w r h
    simp only [takeSpaces, Prod.mk.injEq] at h
    obtain ⟨h1, h2⟩ := h
    subst h1
    subst h2
    exact ⟨rfl, by simp, trivial⟩
  | cons c t ih =>
    intro w r h
    by_cases hc : isGoSpace c = true
    · simp only [takeSpaces, hc, if_true, Prod.mk.injEq] at h
      obtain ⟨h1, h2⟩ := h
      obtain ⟨ha, hb, hn⟩ := ih (rfl : takeSpaces t = ((takeSpaces t).1, (takeSpaces t).2))
      subst h1
      subst h2
      refine ⟨by rw [List.cons_append, ← ha], ?_, hn⟩
      intro x hx
      rcases List.mem_cons.mp hx with hx | hx
      · subst hx
        exact hc
      · exact hb x hx
    · simp only [takeSpaces, hc, Bool.false_eq_true, if_false, Prod.mk.injEq] at h
      obtain ⟨h1, h2⟩ := h
      subst h1
      subst h2
      exact ⟨rfl, by simp, by simpa [NotSpaceStart] using hc⟩

theorem takeSpaces_eat : ∀ {w r : List Char}, (∀ c ∈ w, isGoSpace c = true) →
    NotSpaceStart r → takeSpaces (w ++ r) = (w, r) := by
  intro w
  induction w with
  | nil =>
    intro r _ hr
    match r with
    | [] => rfl
    | c :: t =>
      have hc : isGoSpace c = false := hr
      simp [takeSpaces, hc]
  | cons c t ih =>
    intro r hw hr
    have hc : isGoSpace c = true := hw c (by simp)
    have ht : ∀ x ∈ t, isGoSpace x = true := fun x hx => hw x (by simp [hx])
    simp [takeSpaces, hc, ih ht hr]

theorem takeDigits_sound : ∀ {l f r : List Char}, takeDigits l = (f, r) →
    l = f ++ r ∧ (∀ c ∈ f, c.isDigit = true) ∧ NotDigitStart r := by
  intro l
  induction l with
  | nil =>
    intro f r h
    simp only [takeDigits, Prod.mk.injEq] at h
    obtain ⟨h1, h2⟩ := h
    subst h1
    subst h2
    exact ⟨rfl, by simp, trivial⟩
  | cons c t ih =>
    intro f r h
    by_cases hc : c.isDigit = true
    · simp only [takeDigits, hc, if_true, Prod.mk.injEq] at h
      obtain ⟨h1, h2⟩ := h
      obtain ⟨ha, hb, hn⟩ := ih (rfl : takeDigits t = ((takeDigits t).1, (takeDigits t).2))
      subst h1
      subst h2
      refine ⟨by rw [List.cons_append, ← ha], ?_, hn⟩
      intro x hx
      rcases List.mem_cons.mp hx with hx | hx
      · subst hx
        exact hc
      · exact hb x hx
    · simp only [takeDigits, hc, Bool.false_eq_true, if_false, Prod.mk.injEq] at h
      obtain ⟨h1, h2⟩ := h
      subst h1
      subst h2
      exact ⟨rfl, by simp, by simpa [NotDigitStart] using hc⟩

theorem takeDigits_eat : ∀ {f r : List Char}, (∀ c ∈ f, c.isDigit = true) →
    NotDigitStart r → takeDigits (f ++ r) = (f, r) := by
  intro f
  induction f with
  | nil =>
    intro r _ hr
    match r with
    | [] => rfl
    | c :: t =>
      have hc : c.isDigit = false := hr
      simp [takeDigits, hc]
  | cons c t ih =>
    intro r hf hr
    have hc : c.isDigit = true := hf c (by simp)
    have ht : ∀ x ∈ t, x.isDigit = true := fun x hx => hf x (by simp [hx])
    simp [takeDigits, hc, ih ht hr]

theorem pDigits2_sound {l : List Char} {d r : List Char}
    (h : pDigits2 l = some (d, r)) : l = d ++ r ∧ IsDigits12 d := by
  unfold pDigits2 at h
  by_cases he : (takeDigits2 l).1.isEmpty
  · rw [if_pos he] at h
    cases h
  · rw [if_neg he] at h
    have hp : takeDigits2 l = (d, r) := by
      have := Option.some.inj h
      rw [← this]
    obtain ⟨h1, h2, h3⟩ := takeDigits2_sound hp
    have hne : d ≠ [] := by
      intro hd0
      rw [hp, hd0] at he
      exact he rfl
    exact ⟨h1, ⟨List.length_pos.mpr hne, h2, h3⟩⟩

theorem pDigits2_eat {d r : List Char} (hd : IsDigits12 d)
    (hr : d.length = 2 ∨ NotDigitStart r) : pDigits2 (d ++ r) = some (d, r) := by
  unfold pDigits2
  rw [takeDigits2_eat hd hr]
  have hne : d ≠ [] := by
    intro h0
    rw [h0] at hd
    simp [IsDigits12] at hd
  have hde : d.isEmpty = false := by
    cases d
    · exact absurd rfl hne
    · rfl
  simp [hde]

theorem pSpaces1_sound {l r : List Char} (h : pSpaces1 l = some r) :
    (∃ w, IsSpaces1 w ∧ l = w ++ r) ∧ NotSpaceStart r := by
  unfold pSpaces1 at h
  by_cases he : (takeSpaces l).1.isEmpty
  · rw [if_pos he] at h
    cases h
  · rw [if_neg he] at h
    have hp : takeSpaces l = ((takeSpaces l).1, r) := by
      rw [← Option.some.inj h]
  -- decompose
    obtain ⟨h1, h2, h3⟩ := takeSpaces_sound hp
    have hne : (takeSpaces l).1 ≠ [] := by
      intro h0
      rw [h0] at he
      exact he rfl
    exact ⟨⟨(takeSpaces l).1, ⟨List.length_pos.mpr hne, h2⟩, h1⟩, h3⟩

theorem pSpaces1_eat {w r : List Char} (hw : IsSpaces1 w) (hr : NotSpaceStart r) :
    pSpaces1 (w ++ r) = some r := by
  unfold pSpaces1
  rw [takeSpaces_eat hw.2 hr]
  have hne : w ≠ [] := by
    intro h0
    rw [h0] at hw
    simp [IsSpaces1] at hw
  have hwe : w.isEmpty = false := by
    cases w
    · exact absurd rfl hne
    · rfl
  simp [hwe]

theorem notDigitStart_cons {c : Char} {t : List Char} (h : c.isDigit = false) :
    NotDigitStart (c :: t) := h

theorem notSpaceStart_cons {c : Char} {t : List Char} (h : isGoSpace c = false) :
    NotSpaceStart (c :: t) := h

theorem notDotStart_cons {c : Char} {t : List Char} (h : c ≠ dotChar) :
    NotDotStart (c :: t) := h

theorem digitsVal_le_99 {l : List Char} (h : IsDigits12 l) : digitsVal l ≤ 99 := by
  obtain ⟨h1, h2, h3⟩ := h
  match l with
  | [] => simp at h1
  | [a] =>
    have ha := digit_toNat_bounds (h3 a (by simp))
    simp only [digitsVal, List.foldl_cons, List.foldl_nil]
    omega
  | [a, b] =>
    have ha := digit_toNat_bounds (h3 a (by simp))
    have hb := digit_toNat_bounds (h3 b (by simp))
    simp only [digitsVal, List.foldl_cons, List.foldl_nil]
    omega
  | a :: b :: c :: t => simp at h2

theorem foldl_digits_lt (l : List Char) : ∀ a : ℕ, (∀ c ∈ l, c.isDigit = true) →
    List.foldl (fun a c => 10 * a + (c.toNat - 48)) a l < (a + 1) * 10 ^ l.length := by
  induction l with
  | nil =>
    intro a _
    simp
  | cons c t ih =>
    intro a hl
    have hc := digit_toNat_bounds (hl c (by simp))
    have ht := ih (10 * a + (c.toNat - 48)) (fun x hx => hl x (by simp [hx]))
    simp only [List.foldl_cons, List.length_cons]
    calc List.foldl (fun a c => 10 * a + (c.toNat - 48)) (10 * a + (c.toNat - 48)) t
        < (10 * a + (c.toNat - 48) + 1) * 10 ^ t.length := ht
      _ ≤ (10 * (a + 1)) * 10 ^ t.length := by
          apply Nat.mul_le_mul_right
          omega
      _ = (a + 1) * 10 ^ (t.length + 1) := by ring

theorem digitsVal_lt_pow {l : List Char} (h : ∀ c ∈ l, c.isDigit = true) :
    digitsVal l < 10 ^ l.length := by
  have hv := foldl_digits_lt l 0 h
  simpa [digitsVal] using hv

theorem pSeconds_sound {l : List Char} {q : ℚ} {r : List Char}
    (h : pSeconds l = some (q, r)) :
    (∃ sec, IsSecondsTok sec ∧ l = sec ++ r) ∧ 0 ≤ q ∧ q < 100 := by
  unfold pSeconds at h
  cases hp : pDigits2 l with
  | none =>
    rw [hp] at h
    exact Option.noConfusion h
  | some p =>
    obtain ⟨i, r0⟩ := p
    obtain ⟨hl, hi⟩ := pDigits2_sound hp
    simp only [hp] at h
    have hile : digitsVal i ≤ 99 := digitsVal_le_99 hi
    have hiq : (digitsVal i : ℚ) ≤ 99 := by exact_mod_cast hile
    cases r0 with
    | nil =>
      have h3 : (((digitsVal i : ℚ), ([] : List Char)) : ℚ × List Char) = (q, r) :=
        Option.some.inj h
      have hq : (digitsVal i : ℚ) = q := congrArg Prod.fst h3
      have hr : ([] : List Char) = r := congrArg Prod.snd h3
      subst hq
      refine ⟨⟨i, Or.inl hi, by rw [hl, ← hr]⟩, by positivity, by linarith⟩
    | cons c r2 =>
      have h2 : (if c = dotChar then
          (if (takeDigits r2).1.isEmpty = true then none
            else some ((((digitsVal i : ℚ) + (digitsVal (takeDigits r2).1 : ℚ) /
              10 ^ (takeDigits r2).1.length), (takeDigits r2).2) : ℚ × List Char))
          else some (((digitsVal i : ℚ), c :: r2) : ℚ × List Char)) = some (q, r) := h
      by_cases hcdot : c = dotChar
      · rw [if_pos hcdot] at h2
        by_cases hne : (takeDigits r2).1.isEmpty = true
        · rw [if_pos hne] at h2
          exact Option.noConfusion h2
        · rw [if_neg hne] at h2
          have h3 : ((((digitsVal i : ℚ) + (digitsVal (takeDigits r2).1 : ℚ) /
              10 ^ (takeDigits r2).1.length), (takeDigits r2).2) : ℚ × List Char) = (q, r) :=
            Option.some.inj h2
          have hq : (digitsVal i : ℚ) + (digitsVal (takeDigits r2).1 : ℚ) /
              10 ^ (takeDigits r2).1.length = q := congrArg Prod.fst h3
          have hr : (takeDigits r2).2 = r := congrArg Prod.snd h3
          obtain ⟨h4, h5, h6⟩ :=
            takeDigits_sound (rfl : takeDigits r2 = ((takeDigits r2).1, (takeDigits r2).2))
          have hfne : (takeDigits r2).1 ≠ [] := by
            intro h0
            rw [h0] at hne
            exact hne rfl
          subst hq
          constructor
          · have hgoal : l = (i ++ dotChar :: (takeDigits r2).1) ++ r := by
              rw [hl, hcdot, ← hr]
              conv_lhs => rw [h4]
              simp
            exact ⟨i ++ dotChar :: (takeDigits r2).1,
              Or.inr ⟨i, (takeDigits r2).1, hi, List.length_pos.mpr hfne, h5, rfl⟩, hgoal⟩
          · have hfrac : (digitsVal (takeDigits r2).1 : ℚ) / 10 ^ (takeDigits r2).1.length
                < 1 := by
              rw [div_lt_one (by positivity)]
              exact_mod_cast digitsVal_lt_pow h5
            have hfrac0 : (0 : ℚ) ≤ (digitsVal (takeDigits r2).1 : ℚ) /
                10 ^ (takeDigits r2).1.length := by positivity
            exact ⟨by positivity, by linarith⟩
      · rw [if_neg hcdot] at h2
        have h3 : (((digitsVal i : ℚ), c :: r2) : ℚ × List Char) = (q, r) :=
          Option.some.inj h2
        have hq : (digitsVal i : ℚ) = q := congrArg Prod.fst h3
        have hr : c :: r2 = r := congrArg Prod.snd h3
        subst hq
        refine ⟨⟨i, Or.inl hi, by rw [hl, hr]⟩, by positivity, by linarith⟩

theorem pSeconds_eat {sec r : List Char} (hsec : IsSecondsTok sec) (hr : NotDigitStart r)
    (hrd : NotDotStart r) : ∃ q, pSeconds (sec ++ r) = some (q, r) := by
  rcases hsec with hsec | ⟨i, f, hi, hf1, hfd, heq⟩
  · have he : pDigits2 (sec ++ r) = some (sec, r) := pDigits2_eat hsec (Or.inr hr)
    unfold pSeconds
    simp only [he]
    cases r with
    | nil => exact ⟨(digitsVal sec : ℚ), rfl⟩
    | cons c r2 =>
      have hc : c ≠ dotChar := hrd
      exact ⟨(digitsVal sec : ℚ), by simp [hc]⟩
  · subst heq
    have hassoc : (i ++ dotChar :: f) ++ r = i ++ dotChar :: (f ++ r) := by simp
    rw [hassoc]
    have he : pDigits2 (i ++ dotChar :: (f ++ r)) = some (i, dotChar :: (f ++ r)) :=
      pDigits2_eat hi (Or.inr (notDigitStart_cons (by decide)))
    unfold pSeconds
    simp only [he]
    rw [takeDigits_eat hfd hr]
    have hfne : f ≠ [] := by
      intro h0
      rw [h0] at hf1
      simp at hf1
    have hfe : f.isEmpty = false := by
      cases f
      · exact absurd rfl hfne
      · rfl
    exact ⟨(digitsVal i : ℚ) + (digitsVal f : ℚ) / 10 ^ f.length, by simp [hfe]⟩

theorem expectChar_sound {ch : Char} {l r : List Char} (h : expectChar ch l = some r) :
    l = ch :: r := by
  unfold expectChar at h
  split at h
  · exact Option.noConfusion h
  · rename_i x t
    split at h
    · rename_i hx
      rw [hx, Option.some.inj h]
    · exact Option.noConfusion h

theorem matchDMS_sound {l : List Char} {v : DMS × String} (h : matchDMS l = some v) :
    (∃ d w1 m w2 sec w3 c, IsDigits12 d ∧ IsSpaces1 w1 ∧ IsDigits12 m ∧ IsSpaces1 w2 ∧
        IsSecondsTok sec ∧ IsSpaces1 w3 ∧ IsHemi c ∧
        l = d ++ degreeSign ::
          (w1 ++ (m ++ minuteSign :: (w2 ++ (sec ++ secondSign :: (w3 ++ [c])))))) ∧
    0 ≤ v.1.Degrees ∧ v.1.Degrees ≤ 99 ∧ 0 ≤ v.1.Minutes ∧ v.1.Minutes ≤ 99 ∧
    0 ≤ v.1.Seconds ∧ v.1.Seconds < 100 ∧
    (v.2 = "N" ∨ v.2 = "S" ∨ v.2 = "E" ∨ v.2 = "W") := by
  unfold matchDMS at h
  cases hp1 : pDigits2 l with
  | none =>
    rw [hp1] at h
    exact Option.noConfusion h
  | some p1 =>
    obtain ⟨d, r1⟩ := p1
    obtain ⟨hl1, hd⟩ := pDigits2_sound hp1
    simp only [hp1] at h
    cases hp2 : expectChar degreeSign r1 with
    | none =>
      simp only [hp2] at h
      exact Option.noConfusion h
    | some r2 =>
      have hl2 : r1 = degreeSign :: r2 := expectChar_sound hp2
      simp only [hp2] at h
      cases hp3 : pSpaces1 r2 with
      | none =>
        simp only [hp3] at h
        exact Option.noConfusion h
      | some r3 =>
        obtain ⟨⟨w1, hw1, hl3⟩, hns3⟩ := pSpaces1_sound hp3
        simp only [hp3] at h
        cases hp4 : pDigits2 r3 with
        | none =>
          simp only [hp4] at h
          exact Option.noConfusion h
        | some p4 =>
          obtain ⟨m, r4⟩ := p4
          obtain ⟨hl4, hm⟩ := pDigits2_sound hp4
          simp only [hp4] at h
          cases hp5 : expectChar minuteSign r4 with
          | none =>
            simp only [hp5] at h
            exact Option.noConfusion h
          | some r5 =>
            have hl5 : r4 = minuteSign :: r5 := expectChar_sound hp5
            simp only [hp5] at h
            cases hp6 : pSpaces1 r5 with
            | none =>
              simp only [hp6] at h
              exact Option.noConfusion h
            | some r6 =>
              obtain ⟨⟨w2, hw2, hl6⟩, hns6⟩ := pSpaces1_sound hp6
              simp only [hp6] at h
              cases hp7 : pSeconds r6 with
              | none =>
                simp only [hp7] at h
                exact Option.noConfusion h
              | some p7 =>
                obtain ⟨sq, r7⟩ := p7
                obtain ⟨⟨sec, hsec, hl7⟩, hq0, hq100⟩ := pSeconds_sound hp7
                simp only [hp7] at h
                cases hp8 : expectChar secondSign r7 with
                | none =>
                  simp only [hp8] at h
                  exact Option.noConfusion h
                | some r8 =>
                  have hl8 : r7 = secondSign :: r8 := expectChar_sound hp8
                  simp only [hp8] at h
                  cases hp9 : pSpaces1 r8 with
                  | none =>
                    simp only [hp9] at h
                    exact Option.noConfusion h
                  | some r9 =>
                    obtain ⟨⟨w3, hw3, hl9⟩, hns9⟩ := pSpaces1_sound hp9
                    simp only [hp9] at h
                    match r9, h with
                    | [], h => exact Option.noConfusion h
                    | c :: c2 :: t, h => exact Option.noConfusion h
                    | [c], h =>
                      have h2 : (if isHemisphere c = true then
                          some ((⟨(digitsVal d : ℤ), (digitsVal m : ℤ), sq⟩ : DMS),
                            String.mk [c.toUpper])
                          else none) = some v := h
                      by_cases hhemi : isHemisphere c = true
                      · rw [if_pos hhemi] at h2
                        have hv := Option.some.inj h2
                        have hcm : IsHemi c := by
                          unfold isHemisphere at hhemi
                          simp only [Bool.or_eq_true, beq_iff_eq, or_assoc] at hhemi
                          exact hhemi
                        constructor
                        · exact ⟨d, w1, m, w2, sec, w3, c, hd, hw1, hm, hw2, hsec, hw3, hcm, by
                            rw [hl1, hl2, hl3, hl4, hl5, hl6, hl7, hl8, hl9]⟩
                        · subst hv
                          have hd99 := digitsVal_le_99 hd
                          have hm99 := digitsVal_le_99 hm
                          refine ⟨?_, ?_, ?_, ?_, hq0, hq100, ?_⟩
                          · show (0 : ℤ) ≤ (digitsVal d : ℤ)
                            positivity
                          · show (digitsVal d : ℤ) ≤ 99
                            exact_mod_cast hd99
                          · show (0 : ℤ) ≤ (digitsVal m : ℤ)
                            positivity
                          · show (digitsVal m : ℤ) ≤ 99
                            exact_mod_cast hm99
                          · show String.mk [c.toUpper] = "N" ∨ String.mk [c.toUpper] = "S" ∨
                              String.mk [c.toUpper] = "E" ∨ String.mk [c.toUpper] = "W"
                            rcases hcm with hc | hc | hc | hc <;> subst hc <;> decide
                      · rw [if_neg hhemi] at h2
                        exact Option.noConfusion h2

theorem matchDMS_eat {d w1 m w2 sec w3 : List Char} {c : Char} (hd : IsDigits12 d)
    (hw1 : IsSpaces1 w1) (hm : IsDigits12 m) (hw2 : IsSpaces1 w2) (hsec : IsSecondsTok sec)
    (hw3 : IsSpaces1 w3) (hc : IsHemi c) :
    ∃ v, matchDMS (d ++ degreeSign ::
      (w1 ++ (m ++ minuteSign :: (w2 ++ (sec ++ secondSign :: (w3 ++ [c])))))) = some v := by
  have hmhead : NotSpaceStart (m ++ minuteSign :: (w2 ++ (sec ++ secondSign :: (w3 ++ [c])))) := by
    obtain ⟨hm1, _, hm3⟩ := hm
    match m with
    | [] => simp at hm1
    | x :: t => exact notSpaceStart_cons (digit_not_space (hm3 x (by simp)))
  have hsechead : NotSpaceStart (sec ++ secondSign :: (w3 ++ [c])) := by
    rcases hsec with hsec | ⟨i, f, hi, _, _, heq⟩
    · obtain ⟨hs1, _, hs3⟩ := hsec
      match sec with
      | [] => simp at hs1
      | x :: t => exact notSpaceStart_cons (digit_not_space (hs3 x (by simp)))
    · obtain ⟨hi1, _, hi3⟩ := hi
      match i, heq with
      | [], heq => simp at hi1
      | x :: t, heq =>
        rw [heq]
        exact notSpaceStart_cons (digit_not_space (hi3 x (by simp)))
  have hchead : NotSpaceStart [c] := by
    rcases hc with h | h | h | h <;> subst h <;> exact notSpaceStart_cons (by decide)
  have e1 : pDigits2 (d ++ degreeSign ::
      (w1 ++ (m ++ minuteSign :: (w2 ++ (sec ++ secondSign :: (w3 ++ [c])))))) =
      some (d, degreeSign ::
        (w1 ++ (m ++ minuteSign :: (w2 ++ (sec ++ secondSign :: (w3 ++ [c])))))) :=
    pDigits2_eat hd (Or.inr (notDigitStart_cons (by decide)))
  have e2 : expectChar degreeSign (degreeSign ::
      (w1 ++ (m ++ minuteSign :: (w2 ++ (sec ++ secondSign :: (w3 ++ [c])))))) =
      some (w1 ++ (m ++ minuteSign :: (w2 ++ (sec ++ secondSign :: (w3 ++ [c]))))) := by
    simp [expectChar]
  have e3 : pSpaces1 (w1 ++ (m ++ minuteSign :: (w2 ++ (sec ++ secondSign :: (w3 ++ [c]))))) =
      some (m ++ minuteSign :: (w2 ++ (sec ++ secondSign :: (w3 ++ [c])))) :=
    pSpaces1_eat hw1 hmhead
  have e4 : pDigits2 (m ++ minuteSign :: (w2 ++ (sec ++ secondSign :: (w3 ++ [c])))) =
      some (m, minuteSign :: (w2 ++ (sec ++ secondSign :: (w3 ++ [c])))) :=
    pDigits2_eat hm (Or.inr (notDigitStart_cons (by decide)))
  have e5 : expectChar minuteSign (minuteSign :: (w2 ++ (sec ++ secondSign :: (w3 ++ [c])))) =
      some (w2 ++ (sec ++ secondSign :: (w3 ++ [c]))) := by
    simp [expectChar]
  have e6 : pSpaces1 (w2 ++ (sec ++ secondSign :: (w3 ++ [c]))) =
      some (sec ++ secondSign :: (w3 ++ [c])) :=
    pSpaces1_eat hw2 hsechead
  obtain ⟨q, e7⟩ := @pSeconds_eat sec (secondSign :: (w3 ++ [c])) hsec
    (notDigitStart_cons (by decide)) (notDotStart_cons (by decide))
  have e8 : expectChar secondSign (secondSign :: (w3 ++ [c])) = some (w3 ++ [c]) := by
    simp [expectChar]
  have e9 : pSpaces1 (w3 ++ [c]) = some [c] := pSpaces1_eat hw3 hchead
  have ehemi : isHemisphere c = true := by
    rcases hc with h | h | h | h <;> subst h <;> rfl
  unfold matchDMS
  simp only [e1, e2, e3, e4, e5, e6, e7, e8, e9, if_pos ehemi]
  exact ⟨_, rfl⟩

theorem roundToPlaces_nonneg {v : ℚ} (hv : 0 ≤ v) (p : ℕ) : 0 ≤ roundToPlaces v p := by
  unfold roundToPlaces goRound
  have hy : (0 : ℚ) ≤ v * 10 ^ p := by positivity
  rw [if_pos hy, round_eq]
  have : (0 : ℤ) ≤ ⌊v * 10 ^ p + 1 / 2⌋ := Int.floor_nonneg.mpr (by linarith)
  positivity

theorem roundToPlaces_le_one {v : ℚ} (h0 : 0 ≤ v) (h1 : v < 1) (p : ℕ) :
    roundToPlaces v p ≤ 1 := by
  unfold roundToPlaces goRound
  have hy : (0 : ℚ) ≤ v * 10 ^ p := by positivity
  have hpp : (0 : ℚ) < (10 : ℚ) ^ p := by positivity
  rw [if_pos hy, round_eq]
  have hlt : v * 10 ^ p < 10 ^ p := by nlinarith
  have hfl : ⌊v * 10 ^ p + 1 / 2⌋ ≤ 10 ^ p := by
    have : ⌊v * 10 ^ p + 1 / 2⌋ < (10 : ℤ) ^ p + 1 := by
      rw [Int.floor_lt]
      push_cast
      linarith
    omega
  rw [div_le_one hpp]
  exact_mod_cast hfl

theorem dms_core_bounds (x : ℚ) (hx : 0 ≤ x) :
    0 ≤ ⌊x⌋ ∧ 0 ≤ ⌊(x - (⌊x⌋ : ℚ)) * 60⌋ ∧ ⌊(x - (⌊x⌋ : ℚ)) * 60⌋ ≤ 59 ∧
    0 ≤ roundToPlaces ((x - (⌊x⌋ : ℚ)) * 60 - (⌊(x - (⌊x⌋ : ℚ)) * 60⌋ : ℚ)) 4 * 60 ∧
    roundToPlaces ((x - (⌊x⌋ : ℚ)) * 60 - (⌊(x - (⌊x⌋ : ℚ)) * 60⌋ : ℚ)) 4 * 60 ≤ 60 := by
  have hf0 : (0 : ℚ) ≤ x - ⌊x⌋ := by
    have := Int.floor_le x
    linarith
  have hf1 : x - (⌊x⌋ : ℚ) < 1 := by
    have := Int.lt_floor_add_one x
    linarith
  have hm0 : (0 : ℚ) ≤ (x - (⌊x⌋ : ℚ)) * 60 := mul_nonneg hf0 (by norm_num)
  have hm1 : (x - (⌊x⌋ : ℚ)) * 60 < 60 := by nlinarith
  have hr0 : (0 : ℚ) ≤ (x - (⌊x⌋ : ℚ)) * 60 - (⌊(x - (⌊x⌋ : ℚ)) * 60⌋ : ℚ) := by
    have := Int.floor_le ((x - (⌊x⌋ : ℚ)) * 60)
    linarith
  have hr1 : (x - (⌊x⌋ : ℚ)) * 60 - (⌊(x - (⌊x⌋ : ℚ)) * 60⌋ : ℚ) < 1 := by
    have := Int.lt_floor_add_one ((x - (⌊x⌋ : ℚ)) * 60)
    linarith
  have hrp0 := roundToPlaces_nonneg hr0 4
  have hrp1 := roundToPlaces_le_one hr0 hr1 4
  refine ⟨Int.floor_nonneg.mpr hx, Int.floor_nonneg.mpr hm0, ?_, ?_, ?_⟩
  · have : ⌊(x - (⌊x⌋ : ℚ)) * 60⌋ < 60 := by
      rw [Int.floor_lt]
      exact_mod_cast hm1
    omega
  · exact mul_nonneg hrp0 (by norm_num)
  · calc roundToPlaces ((x - (⌊x⌋ : ℚ)) * 60 - (⌊(x - (⌊x⌋ : ℚ)) * 60⌋ : ℚ)) 4 * 60
        ≤ 1 * 60 := by
          apply mul_le_mul_of_nonneg_right hrp1
          norm_num
      _ = 60 := by norm_num

/-! ### Claim C5 -/

/-- Counterexample to claim C5: the hemisphere letter is not accepted
case-insensitively.  The fixture input is accepted with uppercase `N` but the
identical input with lowercase `n` is rejected with a format error — the
source regex character class `[NSEW]` is case-sensitive, so the subsequent
`strings.ToUpper` normalisation never sees a lowercase letter. -/
theorem claim5_counterexample :
    ParseDMS "38° 51\x27 31.44\x22 N" = Except.ok (⟨38, 51, 31.44⟩, "N") ∧
    ParseDMS "38° 51\x27 31.44\x22 n" =
      Except.error "invalid DMS format: 38° 51\x27 31.44\x22 n" := by
  constructor
  · with_unfolding_all rfl
  · with_unfolding_all rfl

/-- Amended claim C5: `ParseDMS` succeeds exactly on inputs matching the
pattern `D[D]° M[M]\x27 S[.f]\x22 H` with one-or-more-whitespace separators
and an uppercase hemisphere letter `H` in `{N, S, E, W}` (lowercase hemisphere
letters are rejected, so the returned direction is already uppercase); every
other input yields a parse error carrying the offending input, never a
partial parse. -/
theorem claim5_parse_pattern (s : String) :
    ((∃ v, ParseDMS s = Except.ok v) ↔ SpecDMSPattern s) ∧
    (¬SpecDMSPattern s → ParseDMS s = Except.error ("invalid DMS format: " ++ s)) := by
  have hiff : (∃ v, ParseDMS s = Except.ok v) ↔ SpecDMSPattern s := by
    constructor
    · rintro ⟨v, hv⟩
      unfold ParseDMS at hv
      cases hm : matchDMS s.data with
      | none =>
        rw [hm] at hv
        exact Except.noConfusion hv
      | some w =>
        obtain ⟨⟨d, w1, m, w2, sec, w3, c, h1, h2, h3, h4, h5, h6, h7, h8⟩, _⟩ :=
          matchDMS_sound hm
        exact ⟨d, w1, m, w2, sec, w3, c, h1, h2, h3, h4, h5, h6, h7, h8⟩
    · rintro ⟨d, w1, m, w2, sec, w3, c, h1, h2, h3, h4, h5, h6, h7, h8⟩
      obtain ⟨v, hv⟩ := matchDMS_eat h1 h2 h3 h4 h5 h6 h7
      refine ⟨v, ?_⟩
      unfold ParseDMS
      rw [h8, hv]
  refine ⟨hiff, fun hnp => ?_⟩
  unfold ParseDMS
  cases hm : matchDMS s.data with
  | none => rfl
  | some w =>
    exact absurd (hiff.mp ⟨w, by unfold ParseDMS; rw [hm]⟩) hnp

/-- Witness for claim C5: the documented fixture input matches the pattern and
is accepted; the documented malformed input `"38 51 31 N"` is rejected with an
error naming it. -/
theorem claim5_witness :
    (∃ v, ParseDMS "38° 51\x27 31.44\x22 N" = Except.ok v) ∧
    ParseDMS "38 51 31 N" = Except.error ("invalid DMS format: " ++ "38 51 31 N") := by
  constructor
  · refine (claim5_parse_pattern "38° 51\x27 31.44\x22 N").1.mpr ?_
    refine ⟨[Char.ofNat 51, Char.ofNat 56], [Char.ofNat 32], [Char.ofNat 53, Char.ofNat 49],
      [Char.ofNat 32], [Char.ofNat 51, Char.ofNat 49] ++ dotChar :: [Char.ofNat 52, Char.ofNat 52],
      [Char.ofNat 32], 'N', ?_, ?_, ?_, ?_, ?_, ?_, ?_, ?_⟩
    · exact ⟨by decide, by decide, by decide⟩
    · exact ⟨by decide, by decide⟩
    · exact ⟨by decide, by decide, by decide⟩
    · exact ⟨by decide, by decide⟩
    · exact Or.inr ⟨[Char.ofNat 51, Char.ofNat 49], [Char.ofNat 52, Char.ofNat 52],
        ⟨by decide, by decide, by decide⟩, by decide, by decide, rfl⟩
    · exact ⟨by decide, by decide⟩
    · exact Or.inl rfl
    · decide
  · have herr : ParseDMS "38 51 31 N" =
        Except.error ("invalid DMS format: " ++ "38 51 31 N") := by
      with_unfolding_all rfl
    refine (claim5_parse_pattern "38 51 31 N").2 ?_
    intro hp
    obtain ⟨v, hv⟩ := (claim5_parse_pattern "38 51 31 N").1.mpr hp
    rw [herr] at hv
    exact Except.noConfusion hv

/-! ### Claim C7 -/

/-- Counterexample to claim C7: `ParseDMS` accepts any one-or-two-digit
minutes field, so an input with minutes 75 parses successfully and produces a
`DMS` value violating the claimed invariant `minutes ∈ [0, 59]`. -/
theorem claim7_counterexample :
    ParseDMS "10° 75\x27 59\x22 N" = Except.ok (⟨10, 75, 59⟩, "N") ∧
    ¬DMSInvariant ⟨10, 75, 59⟩ := by
  refine ⟨by with_unfolding_all rfl, fun hinv => ?_⟩
  have h75 : (75 : ℤ) ≤ 59 := hinv.2.2.1
  norm_num at h75

/-- Amended claim C7: every `DMS` value produced by `ParseDMS` satisfies only
the weaker bounds degrees ∈ [0, 99], minutes ∈ [0, 99] and seconds ∈ [0, 100)
(the regex checks digit count, not value range), with the hemisphere letter
carried separately as one of `N`, `S`, `E`, `W` and never folded into the
degrees; every value produced by `DecimalToDMS` has nonnegative integer
degrees, minutes ∈ [0, 59] and seconds ∈ [0, 60] — seconds can equal exactly
60 at 4-place rounding boundaries — with the hemisphere letter again carried
separately. -/
theorem claim7_dms_bounds :
    (∀ (s : String) (v : DMS × String), ParseDMS s = Except.ok v →
      0 ≤ v.1.Degrees ∧ v.1.Degrees ≤ 99 ∧ 0 ≤ v.1.Minutes ∧ v.1.Minutes ≤ 99 ∧
      0 ≤ v.1.Seconds ∧ v.1.Seconds < 100 ∧
      (v.2 = "N" ∨ v.2 = "S" ∨ v.2 = "E" ∨ v.2 = "W")) ∧
    ∀ (d : ℚ) (isLatitude : Bool),
      0 ≤ (DecimalToDMS d isLatitude).1.Degrees ∧
      0 ≤ (DecimalToDMS d isLatitude).1.Minutes ∧
      (DecimalToDMS d isLatitude).1.Minutes ≤ 59 ∧
      0 ≤ (DecimalToDMS d isLatitude).1.Seconds ∧
      (DecimalToDMS d isLatitude).1.Seconds ≤ 60 ∧
      ((DecimalToDMS d isLatitude).2 = "N" ∨ (DecimalToDMS d isLatitude).2 = "S" ∨
        (DecimalToDMS d isLatitude).2 = "E" ∨ (DecimalToDMS d isLatitude).2 = "W") := by
  constructor
  · intro s v hv
    unfold ParseDMS at hv
    cases hm : matchDMS s.data with
    | none =>
      rw [hm] at hv
      exact Except.noConfusion hv
    | some w =>
      rw [hm] at hv
      have hw : w = v := Except.ok.inj hv
      subst hw
      exact (matchDMS_sound hm).2
  · intro d isLatitude
    by_cases hneg : d < 0
    · rw [DecimalToDMS_of_neg d hneg isLatitude]
      have hb := dms_core_bounds (-d) (by linarith)
      refine ⟨hb.1, hb.2.1, hb.2.2.1, hb.2.2.2.1, hb.2.2.2.2, ?_⟩
      cases isLatitude <;> simp
    · rw [DecimalToDMS_of_nonneg d hneg isLatitude]
      have hb := dms_core_bounds d (not_lt.mp hneg)
      refine ⟨hb.1, hb.2.1, hb.2.2.1, hb.2.2.2.1, hb.2.2.2.2, ?_⟩
      cases isLatitude <;> simp

/-- Witness for claim C7 on the documented fixture input. -/
theorem claim7_witness :
    0 ≤ ((⟨38, 51, 31.44⟩, "N") : DMS × String).1.Degrees ∧
    ((⟨38, 51, 31.44⟩, "N") : DMS × String).1.Degrees ≤ 99 ∧
    0 ≤ ((⟨38, 51, 31.44⟩, "N") : DMS × String).1.Minutes ∧
    ((⟨38, 51, 31.44⟩, "N") : DMS × String).1.Minutes ≤ 99 ∧
    0 ≤ ((⟨38, 51, 31.44⟩, "N") : DMS × String).1.Seconds ∧
    ((⟨38, 51, 31.44⟩, "N") : DMS × String).1.Seconds < 100 ∧
    (((⟨38, 51, 31.44⟩, "N") : DMS × String).2 = "N" ∨
      ((⟨38, 51, 31.44⟩, "N") : DMS × String).2 = "S" ∨
      ((⟨38, 51, 31.44⟩, "N") : DMS × String).2 = "E" ∨
      ((⟨38, 51, 31.44⟩, "N") : DMS × String).2 = "W") :=
  claim7_dms_bounds.1 "38° 51\x27 31.44\x22 N" (⟨38, 51, 31.44⟩, "N")
    (by with_unfolding_all rfl)

/-! ### Claim C3 -/

theorem meanAnomaly_sample90 :
    meanAnomaly (J2000 + (90 - 357.5291) / 0.98560028) 0 = Real.pi / 2 := by
  unfold meanAnomaly meanSolarNoon J2000 DegreesToRadians
  field_simp
  ring

theorem equationOfCenter_sample90 :
    equationOfCenter (J2000 + (90 - 357.5291) / 0.98560028) 0 = 1.9145 := by
  unfold equationOfCenter
  rw [meanAnomaly_sample90]
  have h2 : (2 : ℝ) * (Real.pi / 2) = Real.pi := by ring
  have h3 : (3 : ℝ) * (Real.pi / 2) = Real.pi + Real.pi / 2 := by ring
  rw [h2, h3, Real.sin_pi_div_two, Real.sin_pi, Real.sin_add, Real.sin_pi, Real.cos_pi,
    Real.sin_pi_div_two]
  norm_num

/-- Claim C3 fails on the code (code bug): at the input where the mean anomaly
is exactly 90 degrees (sin M = 1, so the equation of center is exactly
1.9145 degrees), the source's ecliptic longitude differs from the spec formula
`M + C + 102.9372 + 180` (all in degrees) by `1.9145·(180/π − 1)` ≈ 107.7
degrees — not a multiple of 360, so no normalization reconciles them.  The
source adds the degree-valued `C` to the radian-valued `M` before converting
the sum with `RadiansToDegrees`, mixing units mid-formula and inflating the
equation-of-center term by a factor of 180/π. -/
theorem claim3_unit_mixing_counterexample :
    ∀ k : ℤ,
      eclipticLongitude (J2000 + (90 - 357.5291) / 0.98560028) 0 -
        specEclipticLongitude (J2000 + (90 - 357.5291) / 0.98560028) 0 ≠ 360 * (k : ℝ) := by
  intro k
  have hpi0 : (0 : ℝ) < Real.pi := Real.pi_pos
  have hdiff : eclipticLongitude (J2000 + (90 - 357.5291) / 0.98560028) 0 -
      specEclipticLongitude (J2000 + (90 - 357.5291) / 0.98560028) 0 =
      1.9145 * (180 / Real.pi - 1) := by
    unfold eclipticLongitude specEclipticLongitude RadiansToDegrees DegreesToRadians
    rw [meanAnomaly_sample90, equationOfCenter_sample90]
    field_simp
    ring
  rw [hdiff]
  have hpi3 : (3 : ℝ) < Real.pi := Real.pi_gt_three
  have hpi315 : Real.pi < 3.15 := Real.pi_lt_d2
  have hu1 : 180 / Real.pi < 60 := by
    rw [div_lt_iff hpi0]
    nlinarith
  have hu2 : (57 : ℝ) < 180 / Real.pi := by
    rw [lt_div_iff hpi0]
    nlinarith
  have hlow : (107 : ℝ) < 1.9145 * (180 / Real.pi - 1) := by nlinarith
  have hhigh : 1.9145 * (180 / Real.pi - 1) < 360 := by nlinarith
  intro heq
  rcases le_or_lt k 0 with hk | hk
  · have hk0 : (k : ℝ) ≤ 0 := by exact_mod_cast hk
    nlinarith
  · have hk1 : (1 : ℤ) ≤ k := hk
    have hk1r : (1 : ℝ) ≤ (k : ℝ) := by exact_mod_cast hk1
    nlinarith

/-! ### Claim C1 -/

theorem meanAnomaly_sample0 :
    meanAnomaly (J2000 - 357.5291 / 0.98560028) 0 = 0 := by
  unfold meanAnomaly meanSolarNoon J2000 DegreesToRadians
  field_simp
  ring_nf

theorem equationOfCenter_sample0 :
    equationOfCenter (J2000 - 357.5291 / 0.98560028) 0 = 0 := by
  unfold equationOfCenter
  rw [meanAnomaly_sample0]
  norm_num

/-- Claim C1 fails on the code (code bug): at an input where the hour-angle
arccosine argument provably exceeds 1 (here latitude 0 and target angle 0, a
solar elevation the sun never reaches on this day), `calculateTime` performs
no domain check and returns no error — `math.Acos` yields NaN, which
propagates into the returned `time.Time` (modelled by `none`).  No
`UnreachableAngleError` exists anywhere in the code; the Go function's only
result type is `time.Time`. -/
theorem claim1_unreachable_angle_nan :
    calculateTime (J2000 - 357.5291 / 0.98560028) 0 0 0 true = none ∧
    1 < acosArg (J2000 - 357.5291 / 0.98560028) 0 0 0 := by
  have hpi0 : (0 : ℝ) < Real.pi := Real.pi_pos
  have hpi315 : Real.pi < 3.15 := Real.pi_lt_d2
  have hlam : eclipticLongitude (J2000 - 357.5291 / 0.98560028) 0 * DegreesToRadians =
      102.9372 * (Real.pi / 180) + Real.pi := by
    unfold eclipticLongitude RadiansToDegrees DegreesToRadians
    rw [meanAnomaly_sample0, equationOfCenter_sample0]
    field_simp
  set a : ℝ := 102.9372 * (Real.pi / 180) with ha
  have ha0 : 0 < a := by
    rw [ha]
    positivity
  have hapi : a < Real.pi := by
    rw [ha]
    nlinarith
  have hsina : 0 < Real.sin a := Real.sin_pos_of_pos_of_lt_pi ha0 hapi
  have hsina1 : Real.sin a ≤ 1 := Real.sin_le_one a
  set e : ℝ := 23.44 * (Real.pi / 180) with he
  have he0 : 0 < e := by
    rw [he]
    positivity
  have he1 : e < 1 := by
    rw [he]
    nlinarith
  have hsine : 0 < Real.sin e := by
    apply Real.sin_pos_of_pos_of_lt_pi he0
    nlinarith
  have hsine1 : Real.sin e < 1 := by
    have := Real.sin_lt he0
    linarith
  have hsinlam : Real.sin (eclipticLongitude (J2000 - 357.5291 / 0.98560028) 0 *
      DegreesToRadians) = -Real.sin a := by
    rw [hlam, Real.sin_add_pi]
  have hdecl : declination (J2000 - 357.5291 / 0.98560028) 0 =
      Real.arcsin (-Real.sin a * Real.sin e) := by
    unfold declination
    rw [hsinlam]
    unfold DegreesToRadians
    rw [← he]
  set s : ℝ := -Real.sin a * Real.sin e with hs
  have hs0 : s < 0 := by
    rw [hs]
    nlinarith
  have hs1 : -1 < s := by
    rw [hs]
    nlinarith
  have hd0 : Real.arcsin s < 0 := by
    have hpos : 0 < Real.arcsin (-s) := Real.arcsin_pos.mpr (by linarith)
    have hneg : Real.arcsin (-s) = -Real.arcsin s := Real.arcsin_neg s
    rw [hneg] at hpos
    linarith
  have hdlow : -(Real.pi / 2) < Real.arcsin s := Real.neg_pi_div_two_lt_arcsin.mpr hs1
  have hcos0 : 0 < Real.cos (Real.arcsin s) := by
    apply Real.cos_pos_of_mem_Ioo
    constructor
    · exact hdlow
    · linarith [Real.pi_div_two_pos]
  have hcos1 : Real.cos (Real.arcsin s) < 1 := by
    have hmem0 : (0 : ℝ) ∈ Set.Icc 0 Real.pi := by
      constructor <;> linarith
    have hmemd : -Real.arcsin s ∈ Set.Icc 0 Real.pi := by
      constructor
      · linarith
      · linarith [Real.pi_div_two_pos, Real.two_pi_pos]
    have hlt := Real.strictAntiOn_cos hmem0 hmemd (by linarith)
    rw [Real.cos_neg, Real.cos_zero] at hlt
    exact hlt
  have harg : acosArg (J2000 - 357.5291 / 0.98560028) 0 0 0 =
      1 / Real.cos (Real.arcsin s) := by
    unfold acosArg
    rw [hdecl]
    rw [zero_mul, Real.cos_zero, Real.sin_zero]
    ring
  have hgt1 : 1 < acosArg (J2000 - 357.5291 / 0.98560028) 0 0 0 := by
    rw [harg]
    rw [lt_div_iff hcos0]
    linarith
  refine ⟨?_, hgt1⟩
  unfold calculateTime
  rw [if_neg]
  rintro ⟨h1, h2⟩
  linarith

/-! ### Claim C8 -/

theorem cos_decl_pos (jd lng : ℝ) : 0 < Real.cos (declination jd lng) := by
  unfold declination
  set s : ℝ := Real.sin (eclipticLongitude jd lng * DegreesToRadians) *
    Real.sin (23.44 * DegreesToRadians) with hs
  have hpi0 : (0 : ℝ) < Real.pi := Real.pi_pos
  have hpi315 : Real.pi < 3.15 := Real.pi_lt_d2
  have he0 : 0 < 23.44 * DegreesToRadians := by
    unfold DegreesToRadians
    positivity
  have he1 : 23.44 * DegreesToRadians < 1 := by
    unfold DegreesToRadians
    nlinarith
  have hpi3 : (3 : ℝ) < Real.pi := Real.pi_gt_three
  have hsine1 : Real.sin (23.44 * DegreesToRadians) < 1 := by
    have := Real.sin_lt he0
    linarith
  have hsine0 : 0 < Real.sin (23.44 * DegreesToRadians) := by
    apply Real.sin_pos_of_pos_of_lt_pi he0
    linarith
  have habs : |s| < 1 := by
    rw [hs, abs_mul]
    have h1 : |Real.sin (eclipticLongitude jd lng * DegreesToRadians)| ≤ 1 :=
      abs_le.mpr ⟨Real.neg_one_le_sin _, Real.sin_le_one _⟩
    have h2 : |Real.sin (23.44 * DegreesToRadians)| < 1 := by
      rw [abs_of_pos hsine0]
      exact hsine1
    nlinarith [abs_nonneg (Real.sin (eclipticLongitude jd lng * DegreesToRadians)),
      abs_nonneg (Real.sin (23.44 * DegreesToRadians))]
  obtain ⟨hgt, hlt⟩ := abs_lt.mp habs
  apply Real.cos_pos_of_mem_Ioo
  constructor
  · exact Real.neg_pi_div_two_lt_arcsin.mpr hgt
  · exact Real.arcsin_lt_pi_div_two.mpr hlt

theorem cos_obliquity_le_cos_decl (jd lng : ℝ) :
    Real.cos (23.44 * DegreesToRadians) ≤ Real.cos (declination jd lng) := by
  unfold declination
  set s : ℝ := Real.sin (eclipticLongitude jd lng * DegreesToRadians) *
    Real.sin (23.44 * DegreesToRadians) with hs
  have hpi0 : (0 : ℝ) < Real.pi := Real.pi_pos
  have hpi315 : Real.pi < 3.15 := Real.pi_lt_d2
  have he0 : 0 < 23.44 * DegreesToRadians := by
    unfold DegreesToRadians
    positivity
  have he2 : 23.44 * DegreesToRadians < Real.pi / 2 := by
    unfold DegreesToRadians
    nlinarith
  have hpi3 : (3 : ℝ) < Real.pi := Real.pi_gt_three
  have hsine0 : 0 < Real.sin (23.44 * DegreesToRadians) := by
    apply Real.sin_pos_of_pos_of_lt_pi he0
    linarith
  have hsabs : |s| ≤ Real.sin (23.44 * DegreesToRadians) := by
    rw [hs, abs_mul, abs_of_pos hsine0]
    have h1 : |Real.sin (eclipticLongitude jd lng * DegreesToRadians)| ≤ 1 :=
      abs_le.mpr ⟨Real.neg_one_le_sin _, Real.sin_le_one _⟩
    nlinarith [abs_nonneg (Real.sin (eclipticLongitude jd lng * DegreesToRadians))]
  have harcs : Real.arcsin (Real.sin (23.44 * DegreesToRadians)) = 23.44 * DegreesToRadians :=
    Real.arcsin_sin (by linarith) (by linarith)
  have hup : Real.arcsin s ≤ 23.44 * DegreesToRadians := by
    rw [← harcs]
    exact Real.monotone_arcsin (by cases abs_le.mp hsabs; linarith)
  have hdown : -(23.44 * DegreesToRadians) ≤ Real.arcsin s := by
    have h1 : Real.arcsin (-Real.sin (23.44 * DegreesToRadians)) =
        -(23.44 * DegreesToRadians) := by
      rw [Real.arcsin_neg, harcs]
    rw [← h1]
    exact Real.monotone_arcsin (by cases abs_le.mp hsabs; linarith)
  have habsle : |Real.arcsin s| ≤ 23.44 * DegreesToRadians := abs_le.mpr ⟨hdown, hup⟩
  calc Real.cos (23.44 * DegreesToRadians)
      ≤ Real.cos |Real.arcsin s| := by
        apply Real.cos_le_cos_of_nonneg_of_le_pi (abs_nonneg _) (by nlinarith) habsle
    _ = Real.cos (Real.arcsin s) := Real.cos_abs _

theorem arccos_antitone {x y : ℝ} (h : x ≤ y) : Real.arccos y ≤ Real.arccos x := by
  rw [Real.arccos_eq_pi_div_two_sub_arcsin, Real.arccos_eq_pi_div_two_sub_arcsin]
  have := Real.monotone_arcsin h
  linarith

theorem acosArg_anti {jd lng lat : ℝ} (hlat : 0 < Real.cos (lat * DegreesToRadians))
    {x y : ℝ} (hx : 0 ≤ x) (hy : y ≤ 180) (hxy : x ≤ y) :
    acosArg jd lng lat y ≤ acosArg jd lng lat x := by
  unfold acosArg
  have hpi0 : (0 : ℝ) < Real.pi := Real.pi_pos
  have hd2r : (0 : ℝ) ≤ DegreesToRadians := by
    unfold DegreesToRadians
    positivity
  have hcc : Real.cos (y * DegreesToRadians) ≤ Real.cos (x * DegreesToRadians) := by
    apply Real.cos_le_cos_of_nonneg_of_le_pi (mul_nonneg hx hd2r)
    · unfold DegreesToRadians
      nlinarith
    · exact mul_le_mul_of_nonneg_right hxy hd2r
  have hden : 0 < Real.cos (lat * DegreesToRadians) * Real.cos (declination jd lng) :=
    mul_pos hlat (cos_decl_pos jd lng)
  apply div_le_div_of_nonneg_right ?_ hden.le
  linarith

theorem calcTime_cond {jd lng lat ang : ℝ} {r : Bool}
    (h : (calculateTime jd lng lat ang r).isSome = true) :
    -1 ≤ acosArg jd lng lat ang ∧ acosArg jd lng lat ang ≤ 1 := by
  unfold calculateTime at h
  by_cases hc : -1 ≤ acosArg jd lng lat ang ∧ acosArg jd lng lat ang ≤ 1
  · exact hc
  · rw [if_neg hc] at h
    simp at h

theorem calcTime_isSome_of {jd lng lat ang : ℝ} {r : Bool}
    (h : -1 ≤ acosArg jd lng lat ang ∧ acosArg jd lng lat ang ≤ 1) :
    (calculateTime jd lng lat ang r).isSome = true := by
  unfold calculateTime
  rw [if_pos h]
  rfl

theorem calcTime_eq_rise {jd lng lat ang : ℝ}
    (h : -1 ≤ acosArg jd lng lat ang ∧ acosArg jd lng lat ang ≤ 1) :
    calculateTime jd lng lat ang true =
      some (roundToSecond (FromJulianDay (solarTransit jd lng +
        -Real.arccos (acosArg jd lng lat ang) / (2 * Real.pi)))) := by
  unfold calculateTime
  rw [if_pos h]
  norm_num

theorem calcTime_eq_set {jd lng lat ang : ℝ}
    (h : -1 ≤ acosArg jd lng lat ang ∧ acosArg jd lng lat ang ≤ 1) :
    calculateTime jd lng lat ang false =
      some (roundToSecond (FromJulianDay (solarTransit jd lng +
        Real.arccos (acosArg jd lng lat ang) / (2 * Real.pi)))) := by
  unfold calculateTime
  rw [if_pos h]
  norm_num

theorem roundToSecond_mono {x y : ℝ} (h : x ≤ y) : roundToSecond x ≤ roundToSecond y := by
  unfold roundToSecond
  rw [round_eq, round_eq]
  exact Int.floor_mono (by linarith)

theorem eventStep_mono {u v : ℝ} (h : u ≤ v) :
    roundToSecond (FromJulianDay u) ≤ roundToSecond (FromJulianDay v) := by
  apply roundToSecond_mono
  unfold FromJulianDay
  nlinarith

/-- Claim C8: for a fixed location (latitude strictly between the poles) and
date at which all eight solar events are defined (no unreachable-angle
condition at any tier — at the poles themselves the code produces NaN times,
so they fall outside the claim's scope), the computed times are ordered:
astronomical dawn ≤ nautical dawn ≤ civil dawn ≤ sunrise ≤ sunset ≤ civil
dusk ≤ nautical dusk ≤ astronomical dusk. -/
theorem claim8_events_ordered (jd lng lat : ℝ) (hlat1 : -90 < lat) (hlat2 : lat < 90)
    (h1 : (AstronomicalTwilightSunrise jd lng lat).isSome = true)
    (h2 : (NauticalTwilightSunrise jd lng lat).isSome = true)
    (h3 : (CivilTwilightSunrise jd lng lat).isSome = true)
    (h4 : (Sunrise jd lng lat).isSome = true)
    (h5 : (Sunset jd lng lat).isSome = true)
    (h6 : (CivilTwilightSunset jd lng lat).isSome = true)
    (h7 : (NauticalTwilightSunset jd lng lat).isSome = true)
    (h8 : (AstronomicalTwilightSunset jd lng lat).isSome = true) :
    (AstronomicalTwilightSunrise jd lng lat).get h1 ≤
      (NauticalTwilightSunrise jd lng lat).get h2 ∧
    (NauticalTwilightSunrise jd lng lat).get h2 ≤ (CivilTwilightSunrise jd lng lat).get h3 ∧
    (CivilTwilightSunrise jd lng lat).get h3 ≤ (Sunrise jd lng lat).get h4 ∧
    (Sunrise jd lng lat).get h4 ≤ (Sunset jd lng lat).get h5 ∧
    (Sunset jd lng lat).get h5 ≤ (CivilTwilightSunset jd lng lat).get h6 ∧
    (CivilTwilightSunset jd lng lat).get h6 ≤ (NauticalTwilightSunset jd lng lat).get h7 ∧
    (NauticalTwilightSunset jd lng lat).get h7 ≤
      (AstronomicalTwilightSunset jd lng lat).get h8 := by
  simp only [AstronomicalTwilightSunrise, NauticalTwilightSunrise, CivilTwilightSunrise,
    Sunrise, Sunset, CivilTwilightSunset, NauticalTwilightSunset,
    AstronomicalTwilightSunset] at h1 h2 h3 h4 h5 h6 h7 h8 ⊢
  have hpi0 : (0 : ℝ) < Real.pi := Real.pi_pos
  have h2pi : (0 : ℝ) < 2 * Real.pi := Real.two_pi_pos
  have hcosφ : 0 < Real.cos (lat * DegreesToRadians) := by
    apply Real.cos_pos_of_mem_Ioo
    unfold DegreesToRadians
    constructor
    · nlinarith
    · nlinarith
  have c108 := calcTime_cond h1
  have c102 := calcTime_cond h2
  have c96 := calcTime_cond h3
  have c90 := calcTime_cond h4
  have key : ∀ x y : ℝ, 0 ≤ x → y ≤ 180 → x ≤ y →
      Real.arccos (acosArg (JulianToUTC jd) lng lat x) ≤
        Real.arccos (acosArg (JulianToUTC jd) lng lat y) :=
    fun x y hx hy hxy => arccos_antitone (acosArg_anti hcosφ hx hy hxy)
  have k1 := key 90.833 96.0 (by norm_num) (by norm_num) (by norm_num)
  have k2 := key 96.0 102.0 (by norm_num) (by norm_num) (by norm_num)
  have k3 := key 102.0 108.0 (by norm_num) (by norm_num) (by norm_num)
  have k0 := Real.arccos_nonneg (acosArg (JulianToUTC jd) lng lat 90.833)
  have hdiv1 : Real.arccos (acosArg (JulianToUTC jd) lng lat 90.833) / (2 * Real.pi) ≤
      Real.arccos (acosArg (JulianToUTC jd) lng lat 96.0) / (2 * Real.pi) := by gcongr
  have hdiv2 : Real.arccos (acosArg (JulianToUTC jd) lng lat 96.0) / (2 * Real.pi) ≤
      Real.arccos (acosArg (JulianToUTC jd) lng lat 102.0) / (2 * Real.pi) := by gcongr
  have hdiv3 : Real.arccos (acosArg (JulianToUTC jd) lng lat 102.0) / (2 * Real.pi) ≤
      Real.arccos (acosArg (JulianToUTC jd) lng lat 108.0) / (2 * Real.pi) := by gcongr
  have hdiv0 : 0 ≤ Real.arccos (acosArg (JulianToUTC jd) lng lat 90.833) / (2 * Real.pi) :=
    div_nonneg k0 (le_of_lt h2pi)
  simp only [calcTime_eq_rise c108, calcTime_eq_rise c102, calcTime_eq_rise c96,
    calcTime_eq_rise c90, calcTime_eq_set c90, calcTime_eq_set c96, calcTime_eq_set c102,
    calcTime_eq_set c108, Option.get_some, neg_div]
  refine ⟨eventStep_mono (by linarith), eventStep_mono (by linarith),
    eventStep_mono (by linarith), eventStep_mono (by linarith),
    eventStep_mono (by linarith), eventStep_mono (by linarith),
    eventStep_mono (by linarith)⟩

theorem acosArg_equator {jd lng a : ℝ} (h90 : 90 ≤ a) (h156 : a ≤ 156) :
    -1 ≤ acosArg jd lng 0 a ∧ acosArg jd lng 0 a ≤ 1 := by
  have hpi0 : (0 : ℝ) < Real.pi := Real.pi_pos
  have hcosd := cos_decl_pos jd lng
  have hcosd2 := cos_obliquity_le_cos_decl jd lng
  have harg : acosArg jd lng 0 a =
      Real.cos (a * DegreesToRadians) / Real.cos (declination jd lng) := by
    unfold acosArg
    simp
  have hd2r : (0 : ℝ) ≤ DegreesToRadians := by
    unfold DegreesToRadians
    positivity
  have hnonpos : Real.cos (a * DegreesToRadians) ≤ 0 := by
    apply Real.cos_nonpos_of_pi_div_two_le_of_le
    · unfold DegreesToRadians
      nlinarith
    · unfold DegreesToRadians
      nlinarith
  have hflip : -Real.cos (a * DegreesToRadians) = Real.cos (Real.pi - a * DegreesToRadians) := by
    rw [Real.cos_pi_sub]
  have hbound : Real.cos (Real.pi - a * DegreesToRadians) ≤
      Real.cos (23.44 * DegreesToRadians) := by
    apply Real.cos_le_cos_of_nonneg_of_le_pi
    · unfold DegreesToRadians
      positivity
    · unfold DegreesToRadians
      nlinarith
    · unfold DegreesToRadians
      nlinarith
  have hneg : -Real.cos (declination jd lng) ≤ Real.cos (a * DegreesToRadians) := by
    nlinarith [hflip, hbound, hcosd2]
  constructor
  · rw [harg, le_div_iff hcosd]
    linarith
  · rw [harg, div_le_one hcosd]
    linarith

theorem astroRiseDef : (AstronomicalTwilightSunrise 2460682.5 0 0).isSome = true := by
  unfold AstronomicalTwilightSunrise
  exact calcTime_isSome_of (acosArg_equator (by norm_num) (by norm_num))

theorem nautRiseDef : (NauticalTwilightSunrise 2460682.5 0 0).isSome = true := by
  unfold NauticalTwilightSunrise
  exact calcTime_isSome_of (acosArg_equator (by norm_num) (by norm_num))

theorem civilRiseDef : (CivilTwilightSunrise 2460682.5 0 0).isSome = true := by
  unfold CivilTwilightSunrise
  exact calcTime_isSome_of (acosArg_equator (by norm_num) (by norm_num))

theorem sunriseDef : (Sunrise 2460682.5 0 0).isSome = true := by
  unfold Sunrise
  exact calcTime_isSome_of (acosArg_equator (by norm_num) (by norm_num))

theorem sunsetDef : (Sunset 2460682.5 0 0).isSome = true := by
  unfold Sunset
  exact calcTime_isSome_of (acosArg_equator (by norm_num) (by norm_num))

theorem civilSetDef : (CivilTwilightSunset 2460682.5 0 0).isSome = true := by
  unfold CivilTwilightSunset
  exact calcTime_isSome_of (acosArg_equator (by norm_num) (by norm_num))

theorem nautSetDef : (NauticalTwilightSunset 2460682.5 0 0).isSome = true := by
  unfold NauticalTwilightSunset
  exact calcTime_isSome_of (acosArg_equator (by norm_num) (by norm_num))

theorem astroSetDef : (AstronomicalTwilightSunset 2460682.5 0 0).isSome = true := by
  unfold AstronomicalTwilightSunset
  exact calcTime_isSome_of (acosArg_equator (by norm_num) (by norm_num))

/-- Witness for claim C8 at the equator (latitude 0), where all eight events
are provably defined for every date and longitude. -/
theorem claim8_witness :
    (AstronomicalTwilightSunrise 2460682.5 0 0).get astroRiseDef ≤
      (NauticalTwilightSunrise 2460682.5 0 0).get nautRiseDef ∧
    (NauticalTwilightSunrise 2460682.5 0 0).get nautRiseDef ≤
      (CivilTwilightSunrise 2460682.5 0 0).get civilRiseDef ∧
    (CivilTwilightSunrise 2460682.5 0 0).get civilRiseDef ≤
      (Sunrise 2460682.5 0 0).get sunriseDef ∧
    (Sunrise 2460682.5 0 0).get sunriseDef ≤ (Sunset 2460682.5 0 0).get sunsetDef ∧
    (Sunset 2460682.5 0 0).get sunsetDef ≤
      (CivilTwilightSunset 2460682.5 0 0).get civilSetDef ∧
    (CivilTwilightSunset 2460682.5 0 0).get civilSetDef ≤
      (NauticalTwilightSunset 2460682.5 0 0).get nautSetDef ∧
    (NauticalTwilightSunset 2460682.5 0 0).get nautSetDef ≤
      (AstronomicalTwilightSunset 2460682.5 0 0).get astroSetDef :=
  claim8_events_ordered 2460682.5 0 0 (by norm_num) (by norm_num) astroRiseDef nautRiseDef
    civilRiseDef sunriseDef sunsetDef civilSetDef nautSetDef astroSetDef

end Suntime
